import Mathlib

/-!
Verification development for the native messaging host and pipeline
orchestrator of the aprimo-dam-crawler-extension repository
(`scripts/native_host.py`).

The embedding models Python strings as lists of Unicode code points
(`List Nat`), byte streams as lists of byte values (`List Nat`), and the
JSON values handled by `json.loads` / `json.dumps` as the inductive type
`Json` below, with numbers restricted to integers (wall-clock timestamps
such as the `ts` fields, which are floats, are elided from modelled event
payloads, as are absolute filesystem paths in the `complete` event).
-/

/-- Unicode code points of a Lean string literal; embeds a Python `str`. -/
def lit (s : String) : List Nat := s.data.map Char.toNat

/-- JSON values as handled by Python `json.loads` / `json.dumps`, with
numbers restricted to integers and strings as code-point lists. -/
inductive Json where
  | null : Json
  | bool (b : Bool) : Json
  | num (n : Int) : Json
  | str (s : List Nat) : Json
  | arr (xs : List Json) : Json
  | obj (kvs : List (List Nat × Json)) : Json

compile_inductive% Json

/-- Shorthand for a JSON string built from a Lean literal. -/
def jstr (s : String) : Json := .str (lit s)

/-- Structural equality on `Json`, modelling Python `==` on parsed JSON
values (dict order is irrelevant only for genuine dicts; the host only
compares strings, where this agrees with Python). -/
def jsonBeqF : Nat → Json → Json → Bool
  | 0, _, _ => false
  | f + 1, a, b =>
    match a, b with
    | .null, .null => true
    | .bool x, .bool y => x == y
    | .num x, .num y => x == y
    | .str x, .str y => x == y
    | .arr [], .arr [] => true
    | .arr (x :: xs), .arr (y :: ys) =>
      jsonBeqF f x y && jsonBeqF f (.arr xs) (.arr ys)
    | .obj [], .obj [] => true
    | .obj ((k, v) :: kvs), .obj ((l, w) :: lws) =>
      k == l && jsonBeqF f v w && jsonBeqF f (.obj kvs) (.obj lws)
    | _, _ => false

/-- Structural equality on `Json` (the fuel `sizeOf a` covers the
recursion depth). -/
def jsonBeq (a b : Json) : Bool := jsonBeqF (sizeOf a) a b

instance : BEq Json := ⟨jsonBeq⟩

/-- Python truthiness of a JSON value (`if not stage`, `mode or "pipeline"`). -/
def jsonTruthy : Json → Bool
  | .null => false
  | .bool b => b
  | .num n => n != 0
  | .str s => !s.isEmpty
  | .arr xs => !xs.isEmpty
  | .obj kvs => !kvs.isEmpty

/-- First-occurrence association lookup, modelling `dict.get` (Python dicts
have unique keys, so first occurrence is the key's occurrence). -/
def lookupKey (kvs : List (List Nat × Json)) (k : List Nat) : Option Json :=
  match kvs with
  | [] => none
  | (k', v) :: rest => if k' = k then some v else lookupKey rest k

/-- Remove a key, modelling `dict.pop(k)` on a dict containing `k`. -/
def removeKey (kvs : List (List Nat × Json)) (k : List Nat) :
    List (List Nat × Json) :=
  match kvs with
  | [] => []
  | (k', v) :: rest => if k' = k then removeKey rest k else (k', v) :: removeKey rest k

/-- Update-or-append, modelling `d[k] = v` on a Python dict: an existing key
keeps its position, a new key is appended. -/
def setKey (kvs : List (List Nat × Json)) (k : List Nat) (v : Json) :
    List (List Nat × Json) :=
  match kvs with
  | [] => [(k, v)]
  | (k', v') :: rest =>
      if k' = k then (k, v) :: rest else (k', v') :: setKey rest k v

/-- Valid Unicode scalar value (encodable by `str.encode("utf-8")`). -/
def validScalar (c : Nat) : Bool := c < 1114112 && !(55296 ≤ c && c < 57344)

/-- All code points of a string are valid scalar values. -/
def validStr (s : List Nat) : Bool := s.all validScalar

/-- Well-formed JSON value: every string (contents and object keys) consists
of valid scalar values and every object has pairwise-distinct keys — exactly
the values that arise from a Python string-keyed JSON-compatible mapping. -/
def wfJsonF : Nat → Json → Bool
  | 0, _ => false
  | f + 1, v =>
    match v with
    | .null => true
    | .bool _ => true
    | .num _ => true
    | .str s => validStr s
    | .arr [] => true
    | .arr (x :: xs) => wfJsonF f x && wfJsonF f (.arr xs)
    | .obj [] => true
    | .obj ((k, w) :: kvs) =>
      validStr k && !(kvs.any (fun kv => kv.1 == k)) && wfJsonF f w && wfJsonF f (.obj kvs)

/-- Well-formedness with `sizeOf`-derived fuel. -/
def wfJson (v : Json) : Bool := wfJsonF (sizeOf v) v

/-! ## UTF-8 (`str.encode("utf-8")` / `bytes.decode("utf-8")`) -/

/-- UTF-8 encoding of one scalar value. -/
def utf8EncodeChar (c : Nat) : List Nat :=
  if c < 128 then [c]
  else if c < 2048 then [192 + c / 64, 128 + c % 64]
  else if c < 65536 then [224 + c / 4096, 128 + c / 64 % 64, 128 + c % 64]
  else [240 + c / 262144, 128 + c / 4096 % 64, 128 + c / 64 % 64, 128 + c % 64]

/-- UTF-8 encoding of a string (code-point list) to bytes. -/
def utf8Encode : List Nat → List Nat
  | [] => []
  | c :: cs => utf8EncodeChar c ++ utf8Encode cs

/-- UTF-8 continuation byte test. -/
def isCont (b : Nat) : Bool := 128 ≤ b && b < 192

/-- Decode one UTF-8 sequence from the front of a byte list, rejecting
malformed, overlong, surrogate and out-of-range sequences as
`bytes.decode("utf-8")` does. Returns the scalar and the remaining bytes. -/
def utf8DecodeOne : List Nat → Option (Nat × List Nat)
  | [] => none
  | b :: bs =>
    if b < 128 then some (b, bs)
    else if b < 192 then none
    else if b < 224 then
      match bs with
      | b1 :: r =>
        if isCont b1 then
          let c := (b - 192) * 64 + (b1 - 128)
          if 128 ≤ c then some (c, r) else none
        else none
      | [] => none
    else if b < 240 then
      match bs with
      | b1 :: b2 :: r =>
        if isCont b1 && isCont b2 then
          let c := (b - 224) * 4096 + (b1 - 128) * 64 + (b2 - 128)
          if 2048 ≤ c ∧ validScalar c = true then some (c, r) else none
        else none
      | _ => none
    else if b < 248 then
      match bs with
      | b1 :: b2 :: b3 :: r =>
        if isCont b1 && isCont b2 && isCont b3 then
          let c := (b - 240) * 262144 + (b1 - 128) * 4096 + (b2 - 128) * 64 + (b3 - 128)
          if 65536 ≤ c ∧ c < 1114112 then some (c, r) else none
        else none
      | _ => none
    else none

/-- Fuel-indexed UTF-8 decoding loop; each decoded character consumes at
least one byte, so `bs.length` fuel always suffices. -/
def utf8DecodeAux : Nat → List Nat → Option (List Nat)
  | _, [] => some []
  | 0, _ :: _ => none
  | f + 1, b :: bs =>
    match utf8DecodeOne (b :: bs) with
    | some (c, r) => (utf8DecodeAux f r).map (c :: ·)
    | none => none

/-- UTF-8 decoding of a whole byte list (`bytes.decode("utf-8")`). -/
def utf8Decode (bs : List Nat) : Option (List Nat) := utf8DecodeAux bs.length bs

/-! ## 4-byte little-endian length prefix (`struct.pack("<I", n)` / unpack) -/

/-- `struct.pack("<I", n)` for `n < 2^32`. -/
def packU32 (n : Nat) : List Nat :=
  [n % 256, n / 256 % 256, n / 65536 % 256, n / 16777216 % 256]

/-- `struct.unpack("<I", raw)[0]` on four bytes. -/
def unpackU32 (a b c d : Nat) : Nat := a + 256 * b + 65536 * c + 16777216 * d

/-! ## JSON serialization (`json.dumps`)

`NativeHost._write_message` uses `json.dumps(payload, ensure_ascii=False)`
(default separators `", "` and `": "`); `verify_command_signature` uses
`json.dumps(command, sort_keys=True)` (default `ensure_ascii=True`). -/

/-- Fuel-indexed decimal digit rendering. -/
def natDigsF : Nat → Nat → List Nat
  | 0, _ => []
  | f + 1, n => if n < 10 then [n] else natDigsF f (n / 10) ++ [n % 10]

/-- Decimal digits of a natural number, most significant first. -/
def natDigs (n : Nat) : List Nat := natDigsF (n + 1) n

/-- `repr` of a Python `int`, as used by `json.dumps` for integers. -/
def serInt (n : Int) : List Nat :=
  if n < 0 then 45 :: (natDigs n.natAbs).map (· + 48)
  else (natDigs n.natAbs).map (· + 48)

/-- Hex digit character (lowercase), as used by `json.encoder`. -/
def hexDigit (x : Nat) : Nat := if x < 10 then 48 + x else 87 + x

/-- `\uXXXX` escape for a value below `0x10000`. -/
def uEsc (x : Nat) : List Nat :=
  [92, 117, hexDigit (x / 4096 % 16), hexDigit (x / 256 % 16),
   hexDigit (x / 16 % 16), hexDigit (x % 16)]

/-- Escaping of one character by `json.dumps(..., ensure_ascii=False)`:
only `"` and backslash and control characters below `0x20` are escaped. -/
def escapeChar (c : Nat) : List Nat :=
  if c = 34 then [92, 34]
  else if c = 92 then [92, 92]
  else if c = 8 then [92, 98]
  else if c = 9 then [92, 116]
  else if c = 10 then [92, 110]
  else if c = 12 then [92, 102]
  else if c = 13 then [92, 114]
  else if c < 32 then uEsc c
  else [c]

/-- Escaping of a whole string, `ensure_ascii=False`. -/
def escapeStr : List Nat → List Nat
  | [] => []
  | c :: cs => escapeChar c ++ escapeStr cs

/-- Serialized JSON string literal, `ensure_ascii=False`. -/
def serStr (s : List Nat) : List Nat := 34 :: (escapeStr s ++ [34])

mutual

/-- Fuel-indexed `json.dumps(v, ensure_ascii=False)` body. -/
def serValF : Nat → Json → List Nat
  | 0, _ => []
  | f + 1, v =>
    match v with
    | .null => [110, 117, 108, 108]
    | .bool true => [116, 114, 117, 101]
    | .bool false => [102, 97, 108, 115, 101]
    | .num n => serInt n
    | .str s => serStr s
    | .arr [] => [91, 93]
    | .arr (x :: xs) => 91 :: (serValF f x ++ serArrF f xs)
    | .obj [] => [123, 125]
    | .obj ((k, w) :: kvs) => 123 :: (serStr k ++ 58 :: 32 :: (serValF f w ++ serObjF f kvs))

/-- Fuel-indexed remaining array elements: `", " elem ... "]"`. -/
def serArrF : Nat → List Json → List Nat
  | 0, _ => []
  | _ + 1, [] => [93]
  | f + 1, x :: xs => 44 :: 32 :: (serValF f x ++ serArrF f xs)

/-- Fuel-indexed remaining object entries. -/
def serObjF : Nat → List (List Nat × Json) → List Nat
  | 0, _ => []
  | _ + 1, [] => [125]
  | f + 1, (k, w) :: kvs => 44 :: 32 :: (serStr k ++ 58 :: 32 :: (serValF f w ++ serObjF f kvs))

end

/-- `json.dumps(v, ensure_ascii=False)` as a code-point list (default
separators `", "` / `": "`, insertion order preserved for dicts); the
`sizeOf` fuel covers the recursion depth. -/
def serVal (v : Json) : List Nat := serValF (sizeOf v) v

/-- Remaining array elements: `", " elem ... "]"`. -/
def serArrRest (xs : List Json) : List Nat := serArrF (sizeOf xs) xs

/-- Remaining object entries: `", " key ": " value ... "\x7d"`. -/
def serObjRest (kvs : List (List Nat × Json)) : List Nat := serObjF (sizeOf kvs) kvs

/-- Escaping of one character by `json.dumps` with default
`ensure_ascii=True`: everything outside printable ASCII is `\uXXXX`-escaped,
astral characters as a surrogate pair. -/
def escapeCharAscii (c : Nat) : List Nat :=
  if c = 34 then [92, 34]
  else if c = 92 then [92, 92]
  else if c = 8 then [92, 98]
  else if c = 9 then [92, 116]
  else if c = 10 then [92, 110]
  else if c = 12 then [92, 102]
  else if c = 13 then [92, 114]
  else if c < 32 || 126 < c then
    if c < 65536 then uEsc c
    else uEsc (55296 + (c - 65536) / 1024) ++ uEsc (56320 + (c - 65536) % 1024)
  else [c]

/-- Escaping of a whole string, `ensure_ascii=True`. -/
def escapeStrAscii : List Nat → List Nat
  | [] => []
  | c :: cs => escapeCharAscii c ++ escapeStrAscii cs

/-- Serialized JSON string literal, `ensure_ascii=True`. -/
def cserStr (s : List Nat) : List Nat := 34 :: (escapeStrAscii s ++ [34])

/-- Code-point-wise lexicographic order on strings, as Python `str` `<`
used by `sorted` for `sort_keys=True`. -/
def lexLe : List Nat → List Nat → Bool
  | [], _ => true
  | _ :: _, [] => false
  | a :: as, b :: bs => if a < b then true else if b < a then false else lexLe as bs

/-- Insert a (raw key, rendered fragment) pair into a key-sorted list. -/
def insortPair (p : List Nat × List Nat) :
    List (List Nat × List Nat) → List (List Nat × List Nat)
  | [] => [p]
  | q :: qs => if lexLe p.1 q.1 then p :: q :: qs else q :: insortPair p qs

/-- Insertion sort of rendered object entries by raw key. -/
def sortPairs : List (List Nat × List Nat) → List (List Nat × List Nat)
  | [] => []
  | p :: ps => insortPair p (sortPairs ps)

/-- Join rendered object entries with `", "`. -/
def joinCommaSp : List (List Nat × List Nat) → List Nat
  | [] => []
  | [p] => p.2
  | p :: q :: r => p.2 ++ 44 :: 32 :: joinCommaSp (q :: r)

mutual

/-- `json.dumps(v, sort_keys=True)` (default `ensure_ascii=True`) as a
code-point list: the canonical serialization hashed by
`verify_command_signature`. Dict entries are rendered and then joined in
key-sorted order, at every nesting level. -/
def cser : Json → List Nat
  | .null => [110, 117, 108, 108]
  | .bool true => [116, 114, 117, 101]
  | .bool false => [102, 97, 108, 115, 101]
  | .num n => serInt n
  | .str s => cserStr s
  | .arr [] => [91, 93]
  | .arr (x :: xs) => 91 :: (cser x ++ cserArrRest xs)
  | .obj kvs => 123 :: (joinCommaSp (sortPairs (cserPairs kvs)) ++ [125])

/-- Remaining array elements for the canonical serialization. -/
def cserArrRest : List Json → List Nat
  | [] => [93]
  | x :: xs => 44 :: 32 :: (cser x ++ cserArrRest xs)

/-- Rendered `key ": " value` fragments of an object, unsorted. -/
def cserPairs : List (List Nat × Json) → List (List Nat × List Nat)
  | [] => []
  | (k, v) :: kvs => (k, cserStr k ++ 58 :: 32 :: cser v) :: cserPairs kvs

end

/-! ## JSON parsing (`json.loads`)

A recursive-descent parser modelling `json.loads` on the grammar the host
actually exchanges: the canonical output of `json.dumps` (with optional
whitespace around tokens). Fractional/exponent number forms and
surrogate-pair escapes are outside the modelled grammar. -/

/-- JSON insignificant whitespace. -/
def isWs (c : Nat) : Bool := c = 32 || c = 9 || c = 10 || c = 13

/-- Skip insignificant whitespace. -/
def skipWs (l : List Nat) : List Nat := l.dropWhile isWs

/-- ASCII decimal digit test. -/
def isDigitN (c : Nat) : Bool := 48 ≤ c && c ≤ 57

/-- Numeric value of a big-endian list of digit characters. -/
def digitsVal (ds : List Nat) : Nat := ds.foldl (fun a c => a * 10 + (c - 48)) 0

/-- `ndh l` ("no digit head"): `l` does not continue a decimal literal. -/
def ndh (l : List Nat) : Bool :=
  match l with
  | [] => true
  | c :: _ => !isDigitN c

/-- Value of one hex digit character (either case), `none` otherwise. -/
def hexVal (c : Nat) : Option Nat :=
  if 48 ≤ c ∧ c ≤ 57 then some (c - 48)
  else if 97 ≤ c ∧ c ≤ 102 then some (c - 87)
  else if 65 ≤ c ∧ c ≤ 70 then some (c - 55)
  else none

/-- Single-character escapes accepted after a backslash. -/
def unescSimple (e : Nat) : Option Nat :=
  if e = 34 then some 34
  else if e = 92 then some 92
  else if e = 47 then some 47
  else if e = 98 then some 8
  else if e = 102 then some 12
  else if e = 110 then some 10
  else if e = 114 then some 13
  else if e = 116 then some 9
  else none

/-- Parse one unit of a JSON string body: the closing quote
(`some (none, rest)`), one (possibly escaped) character
(`some (some ch, rest)`), or a malformed input (`none`). -/
def parseStrStep : List Nat → Option (Option Nat × List Nat)
  | [] => none
  | c :: rest =>
    if c = 34 then some (none, rest)
    else if c = 92 then
      match rest with
      | [] => none
      | e :: r =>
        if e = 117 then
          match r with
          | d1 :: d2 :: d3 :: d4 :: r2 =>
            match hexVal d1, hexVal d2, hexVal d3, hexVal d4 with
            | some h1, some h2, some h3, some h4 =>
              some (some (((h1 * 16 + h2) * 16 + h3) * 16 + h4), r2)
            | _, _, _, _ => none
          | _ => none
        else
          match unescSimple e with
          | some c2 => some (some c2, r)
          | none => none
    else some (some c, rest)

/-- Fuel-indexed string-body loop; each unit consumes at least one
character, so the input length is always enough fuel. -/
def parseStrAux : Nat → List Nat → Option (List Nat × List Nat)
  | 0, _ => none
  | f + 1, input =>
    match parseStrStep input with
    | some (none, rest) => some ([], rest)
    | some (some ch, rest) => (parseStrAux f rest).map (fun pr => (ch :: pr.1, pr.2))
    | none => none

/-- Parse the body of a JSON string after the opening quote; returns the
decoded contents and the input after the closing quote. -/
def parseStrBody (input : List Nat) : Option (List Nat × List Nat) :=
  parseStrAux input.length input

/-- Consume an expected literal tail (e.g. `ull` after `n`). -/
def dropLit : List Nat → List Nat → Option (List Nat)
  | [], l => some l
  | p :: ps, c :: cs => if c = p then dropLit ps cs else none
  | _ :: _, [] => none

mutual

/-- Fuel-indexed JSON value parser; returns the value and remaining input. -/
def parseVal : Nat → List Nat → Option (Json × List Nat)
  | 0, _ => none
  | f + 1, input =>
    match skipWs input with
    | [] => none
    | c :: r =>
      if c = 110 then (dropLit [117, 108, 108] r).map (fun r2 => (.null, r2))
      else if c = 116 then (dropLit [114, 117, 101] r).map (fun r2 => (.bool true, r2))
      else if c = 102 then (dropLit [97, 108, 115, 101] r).map (fun r2 => (.bool false, r2))
      else if c = 34 then (parseStrBody r).map (fun pr => (.str pr.1, pr.2))
      else if c = 45 then
        let ds := r.takeWhile isDigitN
        if ds.isEmpty then none
        else some (.num (-(digitsVal ds : Int)), r.dropWhile isDigitN)
      else if isDigitN c then
        some (.num (digitsVal ((c :: r).takeWhile isDigitN)), (c :: r).dropWhile isDigitN)
      else if c = 91 then
        match skipWs r with
        | c2 :: r2 =>
          if c2 = 93 then some (.arr [], r2)
          else
            match parseVal f r with
            | some (v, r3) => (parseArrTail f r3).map (fun pr => (.arr (v :: pr.1), pr.2))
            | none => none
        | [] => none
      else if c = 123 then
        match skipWs r with
        | c2 :: r2 =>
          if c2 = 125 then some (.obj [], r2)
          else
            match parseKv f r with
            | some (kv, r3) => (parseObjTail f r3).map (fun pr => (.obj (kv :: pr.1), pr.2))
            | none => none
        | [] => none
      else none

/-- Parse one `"key": value` entry of an object. -/
def parseKv : Nat → List Nat → Option ((List Nat × Json) × List Nat)
  | 0, _ => none
  | f + 1, input =>
    match skipWs input with
    | [] => none
    | c :: r =>
      if c = 34 then
        match parseStrBody r with
        | some (k, r2) =>
          match skipWs r2 with
          | [] => none
          | c2 :: r3 =>
            if c2 = 58 then (parseVal f r3).map (fun pr => ((k, pr.1), pr.2))
            else none
        | none => none
      else none

/-- Parse the continuation of an array after one element: `]` or `, elem …`. -/
def parseArrTail : Nat → List Nat → Option (List Json × List Nat)
  | 0, _ => none
  | f + 1, input =>
    match skipWs input with
    | [] => none
    | c :: r =>
      if c = 93 then some ([], r)
      else if c = 44 then
        match parseVal f r with
        | some (v, r2) => (parseArrTail f r2).map (fun pr => (v :: pr.1, pr.2))
        | none => none
      else none

/-- Parse the continuation of an object after one entry. -/
def parseObjTail : Nat → List Nat → Option (List (List Nat × Json) × List Nat)
  | 0, _ => none
  | f + 1, input =>
    match skipWs input with
    | [] => none
    | c :: r =>
      if c = 125 then some ([], r)
      else if c = 44 then
        match parseKv f r with
        | some (kv, r2) => (parseObjTail f r2).map (fun pr => (kv :: pr.1, pr.2))
        | none => none
      else none

end

/-- `json.loads` on a code-point list: parse one value, then require only
trailing whitespace. `none` models a raised `json.JSONDecodeError`. -/
def jsonParse (text : List Nat) : Option Json :=
  match parseVal (text.length + 1) text with
  | some (v, rest) => if (skipWs rest).isEmpty then some v else none
  | none => none

/-! ## SHA-256 and HMAC (`hashlib.sha256`, `hmac.new(...).hexdigest()`) -/

/-- Truncate to 32 bits. -/
def w32 (x : Nat) : Nat := x % 4294967296

/-- 32-bit right rotation (argument below `2^32`). -/
def rotr (x n : Nat) : Nat := w32 ((x >>> n) ||| (x <<< (32 - n)))

/-- SHA-256 round constants. -/
def K256 : List Nat :=
  [1116352408, 1899447441, 3049323471, 3921009573, 961987163, 1508970993,
   2453635748, 2870763221, 3624381080, 310598401, 607225278, 1426881987,
   1925078388, 2162078206, 2614888103, 3248222580, 3835390401, 4022224774,
   264347078, 604807628, 770255983, 1249150122, 1555081692, 1996064986,
   2554220882, 2821834349, 2952996808, 3210313671, 3336571891, 3584528711,
   113926993, 338241895, 666307205, 773529912, 1294757372, 1396182291,
   1695183700, 1986661051, 2177026350, 2456956037, 2730485921, 2820302411,
   3259730800, 3345764771, 3516065817, 3600352804, 4094571909, 275423344,
   430227734, 506948616, 659060556, 883997877, 958139571, 1322822218,
   1537002063, 1747873779, 1955562222, 2024104815, 2227730452, 2361852424,
   2428436474, 2756734187, 3204031479, 3329325298]

/-- SHA-256 initial hash state. -/
def H256 : List Nat :=
  [1779033703, 3144134277, 1013904242, 2773480762, 1359893119, 2600822924,
   528734635, 1541459225]

/-- Big-endian 8-byte rendering of a (bit-length) value. -/
def beBytes8 (n : Nat) : List Nat :=
  [n / 72057594037927936 % 256, n / 281474976710656 % 256,
   n / 1099511627776 % 256, n / 4294967296 % 256,
   n / 16777216 % 256, n / 65536 % 256, n / 256 % 256, n % 256]

/-- Big-endian 4-byte rendering of a 32-bit word. -/
def beBytes4 (n : Nat) : List Nat :=
  [n / 16777216 % 256, n / 65536 % 256, n / 256 % 256, n % 256]

/-- SHA-256 message padding. -/
def sha256Pad (msg : List Nat) : List Nat :=
  let len := msg.length
  let k := (64 - (len + 9) % 64) % 64
  msg ++ 128 :: (List.replicate k 0 ++ beBytes8 (8 * len))

/-- Group bytes into big-endian 32-bit words. -/
def toWordsBE : List Nat → List Nat
  | b0 :: b1 :: b2 :: b3 :: rest => (((b0 * 256 + b1) * 256 + b2) * 256 + b3) :: toWordsBE rest
  | _ => []

/-- Split a byte list into 64-byte blocks. -/
def chunks64 : List Nat → List (List Nat)
  | [] => []
  | x :: xs => ((x :: xs).take 64) :: chunks64 (xs.drop 63)
termination_by l => l.length
decreasing_by
  simp [List.length_drop]
  omega

/-- SHA-256 small sigma 0. -/
def sSig0 (x : Nat) : Nat := rotr x 7 ^^^ rotr x 18 ^^^ (x >>> 3)

/-- SHA-256 small sigma 1. -/
def sSig1 (x : Nat) : Nat := rotr x 17 ^^^ rotr x 19 ^^^ (x >>> 10)

/-- SHA-256 big sigma 0. -/
def bSig0 (x : Nat) : Nat := rotr x 2 ^^^ rotr x 13 ^^^ rotr x 22

/-- SHA-256 big sigma 1. -/
def bSig1 (x : Nat) : Nat := rotr x 6 ^^^ rotr x 11 ^^^ rotr x 25

/-- SHA-256 choose function. -/
def chF (e f g : Nat) : Nat := (e &&& f) ^^^ ((4294967295 ^^^ e) &&& g)

/-- SHA-256 majority function. -/
def majF (a b c : Nat) : Nat := (a &&& b) ^^^ (a &&& c) ^^^ (b &&& c)

/-- Extend the 16 block words to the 64-word message schedule. -/
def extendW : Nat → List Nat → List Nat
  | 0, w => w
  | n + 1, w =>
    let i := w.length
    let nw := w32 (w.getD (i - 16) 0 + sSig0 (w.getD (i - 15) 0) +
                   w.getD (i - 7) 0 + sSig1 (w.getD (i - 2) 0))
    extendW n (w ++ [nw])

/-- One SHA-256 compression round on the 8-word working state. -/
def sha256Round (st : List Nat) (wk : Nat × Nat) : List Nat :=
  match st with
  | [a, b, c, d, e, f, g, h] =>
    let t1 := w32 (h + bSig1 e + chF e f g + wk.2 + wk.1)
    let t2 := w32 (bSig0 a + majF a b c)
    [w32 (t1 + t2), a, b, c, w32 (d + t1), e, f, g]
  | other => other

/-- Process one 64-byte block. -/
def sha256Block (h : List Nat) (block : List Nat) : List Nat :=
  let w := extendW 48 (toWordsBE block)
  let st := (w.zip K256).foldl sha256Round h
  (h.zip st).map (fun p => w32 (p.1 + p.2))

/-- `hashlib.sha256(msg).digest()` as a 32-byte list. -/
def sha256 (msg : List Nat) : List Nat :=
  ((chunks64 (sha256Pad msg)).foldl sha256Block H256).foldr
    (fun wv acc => beBytes4 wv ++ acc) []

/-- Lowercase hex rendering of one byte. -/
def hexByte (b : Nat) : List Nat := [hexDigit (b / 16), hexDigit (b % 16)]

/-- Lowercase hex rendering of a byte list (`.hexdigest()`). -/
def hexOfBytes : List Nat → List Nat
  | [] => []
  | b :: bs => hexByte b ++ hexOfBytes bs

/-- `hmac.new(key, msg, hashlib.sha256).digest()` (RFC 2104, block size 64). -/
def hmacSha256 (key msg : List Nat) : List Nat :=
  let k0 := if 64 < key.length then sha256 key else key
  let kp := k0 ++ List.replicate (64 - k0.length) 0
  sha256 ((kp.map (fun b => b ^^^ 92)) ++ sha256 ((kp.map (fun b => b ^^^ 54)) ++ msg))

/-! ## Command authentication (`verify_command_signature`, lines 47-67) -/

/-- The `signature` key. -/
def SIG_KEY : List Nat := lit "signature"

/-- ASCII-only string, as required of `str` arguments by
`hmac.compare_digest`. -/
def isAsciiList (s : List Nat) : Bool := s.all (· < 128)

/-- The hex HMAC-SHA256 the host recomputes for a command: keyed hash of
`json.dumps(command_without_signature, sort_keys=True).encode("utf-8")`. -/
def expectedHex (key : List Nat) (command : List (List Nat × Json)) : List Nat :=
  hexOfBytes (hmacSha256 key (utf8Encode (cser (.obj (removeKey command SIG_KEY)))))

/-- `verify_command_signature` (native_host.py lines 47-67). The first
component is the returned Bool, with `none` modelling the `TypeError`
raised by `hmac.compare_digest` when the popped signature value is not an
ASCII string; the second component is the command dict after the call,
reflecting the destructive `command.pop("signature")`. -/
def verify_command_signature (secret : Option (List Nat))
    (command : List (List Nat × Json)) : Option Bool × List (List Nat × Json) :=
  match secret with
  | none => (some true, command)
  | some key =>
    match lookupKey command SIG_KEY with
    | none => (some false, command)
    | some provided =>
      let command' := removeKey command SIG_KEY
      match provided with
      | .str s =>
        if isAsciiList s then (some (s == expectedHex key command), command')
        else (none, command')
      | _ => (none, command')

/-! ## Framed channel (`_write_message` lines 93-98, `_read_message` lines
100-113) -/

/-- `NativeHost._write_message`: `json.dumps(payload, ensure_ascii=False)`,
UTF-8 encoded, prefixed with `struct.pack("<I", len)`. `none` models the
`OverflowError` struct raises when the payload does not fit 32 bits. -/
def writeMessage (payload : Json) : Option (List Nat) :=
  let encoded := utf8Encode (serVal payload)
  if encoded.length < 4294967296 then some (packU32 encoded.length ++ encoded)
  else none

/-- Result of one framed read from a closed (finite) stream. -/
inductive ReadRes where
  | eof : ReadRes
  | crash : ReadRes
  | msg (j : Json) (rest : List Nat) : ReadRes

/-- The synthetic message `_read_message` substitutes for an undecodable
JSON payload. -/
def INVALID_CMD : Json :=
  .obj [(lit "command", jstr "invalid"), (lit "error", jstr "Invalid JSON")]

/-- `NativeHost._read_message` on the remaining stream bytes: fewer than 4
length bytes is end-of-stream (`None`), a short body is also `None`, an
undecodable UTF-8 body raises (uncaught — `crash`), an unparsable JSON body
becomes the synthetic invalid command. -/
def readMessageFrom (bs : List Nat) : ReadRes :=
  match bs with
  | b0 :: b1 :: b2 :: b3 :: rest =>
    let length := unpackU32 b0 b1 b2 b3
    let body := rest.take length
    if body.length ≠ length then .eof
    else
      match utf8Decode body with
      | none => .crash
      | some text =>
        match jsonParse text with
        | some j => .msg j (rest.drop length)
        | none => .msg INVALID_CMD (rest.drop length)
  | _ => .eof

/-! ## Process Runner (`NativeHost._run_script`, lines 125-191)

The worker subprocess is modelled by the lines it writes to its merged
stdout/stderr stream and its exit codes: `exitRc` when it runs to
completion, `termRc` (the definitive code `wait()` reports, e.g. `-15`
after SIGTERM) when it is terminated. `stopAt i` is the value of
`self._stop_event.is_set()` observed at the check before line `i`;
`alive i` is `self._current_proc.poll() is None` at that same check.
Debug writes to stderr are not client-visible and are not modelled;
`ts` timestamp fields are elided throughout. -/

/-- The five pipeline stages, in catalog order (lines 22-28). -/
def PIPELINE_STAGES : List (List Nat) :=
  [lit "01_crawl_citizens_images.py", lit "02_build_dam_fingerprints.py",
   lit "03_build_citizens_fingerprints.py", lit "04_match_assets.py",
   lit "05_build_reports.py"]

/-- The progress marker `"AUDIT_PROGRESS "` (line 30). -/
def PROGRESS_MARKER : List Nat := lit "AUDIT_PROGRESS "

/-- `pattern.isPrefixOf list` written out for code-point lists. -/
def listStartsWith : List Nat → List Nat → Bool
  | [], _ => true
  | _ :: _, [] => false
  | p :: ps, c :: cs => p == c && listStartsWith ps cs

/-- Python whitespace stripped by `str.rstrip` / `str.strip` (ASCII part). -/
def isPyWs (c : Nat) : Bool := c = 32 || c = 9 || c = 10 || c = 13 || c = 11 || c = 12

/-- `line.rstrip()`. -/
def rstripWs (l : List Nat) : List Nat := (l.reverse.dropWhile isPyWs).reverse

/-- `s.strip()`. -/
def stripWs (l : List Nat) : List Nat := (rstripWs l).dropWhile isPyWs

/-- Outcome of the loop body of `_run_script` for one worker output line. -/
inductive LineOut where
  | progress (payload : Json) : LineOut
  | dropped : LineOut
  | log (msg : List Nat) : LineOut

/-- `{"type": "log", "message": msg}` (lines 182 and 186). -/
def evLog (msg : List Nat) : Json :=
  .obj [(lit "type", jstr "log"), (lit "message", .str msg)]

/-- The classification `_run_script` performs on one received line
(lines 158-186): a progress-prefixed line whose stripped remainder parses
as a JSON object is tagged (`type`, `ts` — elided —, `runId`) and emitted
as a progress event; a progress-prefixed line parsing to a non-object JSON
value falls through the `isinstance` check to `continue` and produces
nothing; a parse failure and every unprefixed line become a log line. -/
def processLine (rid : Option (List Nat)) (line : List Nat) : LineOut :=
  let msg := rstripWs line
  if listStartsWith PROGRESS_MARKER msg then
    let raw := stripWs (msg.drop PROGRESS_MARKER.length)
    match jsonParse raw with
    | some (.obj kvs) =>
      let p1 := setKey kvs (lit "type") (jstr "progress")
      let p2 := match rid with
        | some r => setKey p1 (lit "runId") (.str r)
        | none => p1
      .progress (.obj p2)
    | some _ => .dropped
    | none => .log msg
  else .log msg

/-- The read loop of `_run_script` (lines 148-187): returns
(terminated-by-stop, accumulated `combined_lines`, emitted events). -/
def runScriptLoop (rid : Option (List Nat)) (stopAt alive : Nat → Bool) :
    Nat → List (List Nat) → Bool × List (List Nat) × List Json
  | _, [] => (false, [], [])
  | i, l :: ls =>
    if stopAt i && alive i then (true, [], [])
    else
      match processLine rid l with
      | .progress p =>
        let r := runScriptLoop rid stopAt alive (i + 1) ls
        (r.1, r.2.1, p :: r.2.2)
      | .dropped => runScriptLoop rid stopAt alive (i + 1) ls
      | .log m =>
        let r := runScriptLoop rid stopAt alive (i + 1) ls
        (r.1, m :: r.2.1, evLog m :: r.2.2)

/-- Result of `_run_script`: whether a worker was spawned, whether it was
terminated by the stop flag, the returned exit code, the returned
`"\n".join(combined_lines)` output, and the events written while reading. -/
structure ScriptRes where
  spawned : Bool
  terminated : Bool
  rc : Int
  output : List Nat
  events : List Json

/-- `"\n".join(lines)`. -/
def joinNl : List (List Nat) → List Nat
  | [] => []
  | [l] => l
  | l :: l2 :: ls => l ++ 10 :: joinNl (l2 :: ls)

/-- `NativeHost._run_script` (lines 125-191): a stage name not present in
the scripts directory returns the synthetic failure `(1, "Script not
found: ...")` without spawning; otherwise the worker is spawned and its
lines are read and classified until exhaustion or until the stop flag is
observed while the process is still alive, in which case the worker is
terminated, reading stops, and the definitive exit code from `wait()` is
returned. -/
def runScript (avail : List (List Nat)) (name : List Nat)
    (wLines : List (List Nat)) (exitRc termRc : Int)
    (stopAt alive : Nat → Bool) (rid : Option (List Nat)) : ScriptRes :=
  if avail.contains name then
    let r := runScriptLoop rid stopAt alive 0 wLines
    { spawned := true, terminated := r.1,
      rc := if r.1 then termRc else exitRc,
      output := joinNl r.2.1, events := r.2.2 }
  else
    { spawned := false, terminated := false, rc := 1,
      output := lit "Script not found: " ++ name, events := [] }

/-! ## Pipeline Orchestrator (`NativeHost._run_pipeline`, lines 193-256) -/

/-- Behaviour of the worker program for one stage. -/
structure WorkerBeh where
  outLines : List (List Nat)
  exitRc : Int
  termRc : Int

/-- `_send_status` payload (lines 115-123): `type`, `status`, `ts`
(elided), then `runId`, `message`, `stage` when present. -/
def evStatus (status : List Nat) (rid : Option (List Nat))
    (message : Option (List Nat)) (stage : Option Json) : Json :=
  .obj ([(lit "type", jstr "status"), (lit "status", .str status)] ++
    (match rid with | some r => [(lit "runId", .str r)] | none => []) ++
    (match message with | some m => [(lit "message", .str m)] | none => []) ++
    (match stage with | some s => [(lit "stage", s)] | none => []))

/-- Error reply for `mode=stage` without a stage (line 203; no `runId`). -/
def evMissingStage : Json :=
  .obj [(lit "type", jstr "error"),
        (lit "error", .str (lit "Missing stage for stage mode"))]

/-- Error event when the stop flag is seen between stages (line 213). -/
def evStoppedByUser (rid : List Nat) : Json :=
  .obj [(lit "type", jstr "error"),
        (lit "error", .str (lit "Audit run stopped by user")),
        (lit "runId", .str rid)]

/-- `stage_start` event (line 218). -/
def evStageStart (stage : Json) (rid : List Nat) : Json :=
  .obj [(lit "type", jstr "stage_start"), (lit "stage", stage),
        (lit "runId", .str rid)]

/-- `stage_complete` event (line 230). -/
def evStageComplete (stage : Json) (rid : List Nat) : Json :=
  .obj [(lit "type", jstr "stage_complete"), (lit "stage", stage),
        (lit "runId", .str rid)]

/-- Error event for a stage returning a non-zero exit code (lines
221-228): carries the stage name and the accumulated output. -/
def evStageFailed (name : List Nat) (output : List Nat) (rid : List Nat) : Json :=
  .obj [(lit "type", jstr "error"),
        (lit "error", .str (lit "Stage failed: " ++ name)),
        (lit "stage", .str name), (lit "output", .str output),
        (lit "runId", .str rid)]

/-- Completion event (lines 232-245); the `reports` absolute paths inside
`result` are install-dependent and elided. -/
def evComplete (rid : List Nat) (mode : Json) (stg : Option Json) : Json :=
  .obj [(lit "type", jstr "complete"),
        (lit "message", .str (lit "Audit pipeline completed")),
        (lit "runId", .str rid),
        (lit "result", .obj [(lit "mode", mode),
          (lit "stage", match stg with | some s => s | none => .null)])]

/-- Sanitized error event from the orchestrator's catch-all handler
(lines 246-248); the sanitized exception text is abstracted. -/
def evExceptional (rid : List Nat) : Json :=
  .obj [(lit "type", jstr "error"), (lit "error", .str (lit "<sanitized>")),
        (lit "runId", .str rid)]

/-- Per-stage record of one `_run_script` invocation inside a run. -/
structure StageRun where
  name : Json
  spawned : Bool
  terminated : Bool
  rc : Int
  output : List Nat

/-- Observable result of `_run_pipeline`: the events written, the
`_run_script` invocations in order, and how many workers were spawned.
(The `finally` block clears all run state, so the post-state is the idle
state regardless.) -/
structure PipeRes where
  events : List Json
  runs : List StageRun
  spawns : Nat

/-- The `for stage_name in stages` loop of `_run_pipeline` (lines
211-245), at stage index `j`. A non-string stage entry makes
`SCRIPTS_DIR / stage_name` raise `TypeError` inside `_run_script`, caught
by the orchestrator's handler and reported sanitized; its status message
rendering is abstracted. -/
def pipeLoop (avail : List (List Nat)) (worker : List Nat → WorkerBeh)
    (rid : List Nat) (stopStage : Nat → Bool) (stopLine alive : Nat → Nat → Bool)
    (mode : Json) (stg : Option Json) : Nat → List Json → PipeRes
  | _, [] => { events := [evComplete rid mode stg], runs := [], spawns := 0 }
  | j, sJ :: rest =>
    if stopStage j then { events := [evStoppedByUser rid], runs := [], spawns := 0 }
    else
      match sJ with
      | .str name =>
        let wb := worker name
        let res := runScript avail name wb.outLines wb.exitRc wb.termRc
          (stopLine j) (alive j) (some rid)
        let sr : StageRun :=
          { name := .str name, spawned := res.spawned,
            terminated := res.terminated, rc := res.rc, output := res.output }
        let pre := [evStatus (lit "running") (some rid)
            (some (lit "Running " ++ name)) (some (.str name)),
          evStageStart (.str name) rid]
        if res.rc = 0 then
          let tail := pipeLoop avail worker rid stopStage stopLine alive mode stg
            (j + 1) rest
          { events := pre ++ res.events ++ evStageComplete (.str name) rid :: tail.events,
            runs := sr :: tail.runs,
            spawns := (if res.spawned then 1 else 0) + tail.spawns }
        else
          { events := pre ++ res.events ++ [evStageFailed name res.output rid],
            runs := [sr], spawns := if res.spawned then 1 else 0 }
      | other =>
        { events := [evStatus (lit "running") (some rid)
              (some (lit "Running <stage>")) (some other),
            evStageStart other rid, evExceptional rid],
          runs := [], spawns := 0 }

/-- `NativeHost._run_pipeline` (lines 193-256): `mode == "stage"` with a
falsy stage value yields the missing-stage error before any status event;
otherwise the stage list is the singleton or the catalog and the loop
runs after the `"Audit run started"` status. -/
def runPipeline (avail : List (List Nat)) (worker : List Nat → WorkerBeh)
    (mode : Json) (stg : Option Json) (rid : List Nat)
    (stopStage : Nat → Bool) (stopLine alive : Nat → Nat → Bool) : PipeRes :=
  let startEv := evStatus (lit "running") (some rid) (some (lit "Audit run started")) none
  if jsonBeq mode (jstr "stage") then
    match stg with
    | some v =>
      if jsonTruthy v then
        let r := pipeLoop avail worker rid stopStage stopLine alive mode stg 0 [v]
        { r with events := startEv :: r.events }
      else { events := [evMissingStage], runs := [], spawns := 0 }
    | none => { events := [evMissingStage], runs := [], spawns := 0 }
  else
    let r := pipeLoop avail worker rid stopStage stopLine alive mode stg 0
      (PIPELINE_STAGES.map .str)
    { r with events := startEv :: r.events }

/-! ## Host Session Loop (`NativeHost.serve`, lines 272-313, and the
dispatch helpers `_handle_run` lines 258-263 / `_handle_stop` lines
265-270)

The run-state mutations performed by the pipeline *thread* are not part of
the session loop; `_handle_run` itself only checks `self._running` and
spawns, which `handleMsg` records as a spawn request. -/

/-- The host's shared run state as read by the session loop. -/
structure HostSt where
  running : Bool
  runId : Option (List Nat)
  currentStage : Option Json
  lastProgress : Option Json
  startedAt : Option (List Nat)
  stopSet : Bool

/-- Fresh host state (`NativeHost.__init__`, lines 82-91). -/
def initHost : HostSt :=
  { running := false, runId := none, currentStage := none,
    lastProgress := none, startedAt := none, stopSet := false }

/-- Authentication-failure reply (lines 280-284). -/
def evAuthError : Json :=
  .obj [(lit "type", jstr "error"),
        (lit "error", .str (lit "Invalid or missing command signature"))]

/-- Concurrency-conflict reply (line 260). -/
def evAlreadyRunning : Json :=
  .obj [(lit "type", jstr "error"),
        (lit "error", .str (lit "Audit already running"))]

/-- `stop` reply when no run is live (line 267). -/
def evIdleNoRun : Json :=
  .obj [(lit "type", jstr "status"), (lit "status", jstr "idle"),
        (lit "message", .str (lit "No running audit"))]

/-- `stop` acknowledgement while a run is live (line 270); `runId` is the
current run id, JSON null if unset. -/
def evStopping (st : HostSt) : Json :=
  .obj [(lit "type", jstr "status"), (lit "status", jstr "stopping"),
        (lit "message", .str (lit "Stop requested")),
        (lit "runId", match st.runId with | some r => .str r | none => .null)]

/-- `status` reply (lines 298-310). -/
def evStatusReply (st : HostSt) : Json :=
  .obj ([(lit "type", jstr "status"),
         (lit "status", if st.running then jstr "running" else jstr "idle")] ++
    (match st.runId with
     | some r =>
       if st.running then
         [(lit "runId", .str r),
          (lit "stage", match st.currentStage with | some s => s | none => .null),
          (lit "startedAt", match st.startedAt with | some t => .str t | none => .null)] ++
         (match st.lastProgress with | some p => [(lit "progress", p)] | none => [])
       else []
     | none => []))

/-- Unsupported-command reply (line 313); the f-string rendering of the
command value is abstracted. -/
def evUnsupported : Json :=
  .obj [(lit "type", jstr "error"),
        (lit "error", .str (lit "Unsupported command: <command>"))]

/-- One iteration of the dispatch body of `serve` (lines 278-313) on an
already-read message: `none` models an uncaught exception (the `TypeError`
raised inside `verify_command_signature` by a non-string signature), which
kills the session. Returns the new state, the replies written, and the
`(mode, stage)` pipeline spawn requests made by `_handle_run`. -/
def handleMsg (secret : Option (List Nat)) (st : HostSt)
    (message : List (List Nat × Json)) :
    Option (HostSt × List Json × List (Json × Option Json)) :=
  match verify_command_signature secret message with
  | (none, _) => none
  | (some false, _) => some (st, [evAuthError], [])
  | (some true, m') =>
    let command := lookupKey m' (lit "command")
    if command == some (jstr "run") then
      let mode := match lookupKey m' (lit "mode") with
        | some v => if jsonTruthy v then v else jstr "pipeline"
        | none => jstr "pipeline"
      let stg := lookupKey m' (lit "stage")
      if st.running then some (st, [evAlreadyRunning], [])
      else some (st, [], [(mode, stg)])
    else if command == some (jstr "stop") then
      if st.running then some ({ st with stopSet := true }, [evStopping st], [])
      else some (st, [evIdleNoRun], [])
    else if command == some (jstr "status") then
      some (st, [evStatusReply st], [])
    else
      some (st, [evUnsupported], [])

/-- The session loop over a sequence of already-framed messages: processes
them in order, stopping with `crashed = true` when `handleMsg` raises.
Returns (replies, final state, crashed). -/
def serveMsgs (secret : Option (List Nat)) (st : HostSt) :
    List (List (List Nat × Json)) → List Json × HostSt × Bool
  | [] => ([], st, false)
  | m :: ms =>
    match handleMsg secret st m with
    | none => ([], st, true)
    | some (st', evs, _) =>
      let r := serveMsgs secret st' ms
      (evs ++ r.1, r.2.1, r.2.2)

/-- The session loop over the raw inbound byte stream (fuel-indexed; each
consumed frame uses at least 4 bytes, so `bs.length + 1` fuel suffices).
A non-mapping JSON message makes the dispatch raise (`message.get` on a
non-dict); modelled as a crash. -/
def serveBytesAux (secret : Option (List Nat)) (st : HostSt) :
    Nat → List Nat → List Json × HostSt × Bool
  | 0, _ => ([], st, false)
  | f + 1, bs =>
    match readMessageFrom bs with
    | .eof => ([], st, false)
    | .crash => ([], st, true)
    | .msg j rest =>
      match j with
      | .obj kvs =>
        match handleMsg secret st kvs with
        | none => ([], st, true)
        | some (st', evs, _) =>
          let r := serveBytesAux secret st' f rest
          (evs ++ r.1, r.2.1, r.2.2)
      | _ => ([], st, true)

/-- `NativeHost.serve` reading from a closed finite stream. -/
def serveBytes (secret : Option (List Nat)) (st : HostSt) (bs : List Nat) :
    List Json × HostSt × Bool :=
  serveBytesAux secret st (bs.length + 1) bs

/-! ## Interleaving model for run acceptance (C1)

`_handle_run` (lines 258-263) runs on the session-loop thread: it reads
`self._running` and, if false, spawns the pipeline thread. The pipeline
thread's first action (`_run_pipeline`, line 195) sets
`self._running = True`. There is no lock around the check and the set, and
`threading.Thread.start()` does not wait for the target to begin, so the
flag update races with the next command. The actions below are the atomic
steps of that protocol for two back-to-back `run` commands: `h1`/`h2` are
the two `_handle_run` calls (sequenced: `h2` is only enabled after `h1`,
because `serve` is a single loop), `t1`/`t2` are the spawned threads'
`self._running = True` assignments (enabled only after their spawn). -/

/-- Atomic actions of the two-command race protocol. -/
inductive RAct where
  | h1 : RAct
  | h2 : RAct
  | t1 : RAct
  | t2 : RAct

/-- State of the race protocol. -/
structure RaceSt where
  running : Bool
  handled1 : Bool
  handled2 : Bool
  spawned1 : Bool
  spawned2 : Bool
  started1 : Bool
  started2 : Bool
  accepted1 : Bool
  accepted2 : Bool
  rejected1 : Bool
  rejected2 : Bool
deriving DecidableEq

/-- Initial (idle) state. -/
def raceInit : RaceSt :=
  { running := false, handled1 := false, handled2 := false,
    spawned1 := false, spawned2 := false, started1 := false,
    started2 := false, accepted1 := false, accepted2 := false,
    rejected1 := false, rejected2 := false }

/-- One atomic step: `accepted` means `_handle_run` spawned the pipeline
thread; `rejected` means it wrote the "Audit already running" error. -/
def raceStep (s : RaceSt) : RAct → RaceSt
  | .h1 =>
    if s.handled1 then s
    else if s.running then { s with handled1 := true, rejected1 := true }
    else { s with handled1 := true, spawned1 := true, accepted1 := true }
  | .h2 =>
    if !s.handled1 || s.handled2 then s
    else if s.running then { s with handled2 := true, rejected2 := true }
    else { s with handled2 := true, spawned2 := true, accepted2 := true }
  | .t1 =>
    if s.spawned1 && !s.started1 then { s with started1 := true, running := true }
    else s
  | .t2 =>
    if s.spawned2 && !s.started2 then { s with started2 := true, running := true }
    else s

/-- Execute a schedule from the idle state. -/
def raceExec (acts : List RAct) : RaceSt := acts.foldl raceStep raceInit

/-! ## Measures and specification-side definitions -/

/-- Fuel bound for parsing the serialization of a value. -/
def jsize : Json → Nat
  | .null => 1
  | .bool _ => 1
  | .num _ => 1
  | .str _ => 1
  | .arr [] => 2
  | .arr (x :: xs) => 1 + max (jsize x) (jsize (.arr xs))
  | .obj [] => 2
  | .obj ((_, v) :: kvs) => 1 + max (jsize v + 1) (jsize (.obj kvs))

/-- A stop schedule that is never set. -/
def noStopS : Nat → Bool := fun _ => false

/-- A per-stage/per-line stop schedule that is never set. -/
def noStopL : Nat → Nat → Bool := fun _ _ => false

/-- A per-stage/per-line liveness schedule: the worker is always alive. -/
def aliveAll : Nat → Nat → Bool := fun _ _ => true

/-- The `_run_script` invocation a given stage receives inside a
stop-free run with run id `rid`. -/
def stageRes (avail : List (List Nat)) (worker : List Nat → WorkerBeh)
    (rid : List Nat) (n : List Nat) : ScriptRes :=
  runScript avail n (worker n).outLines (worker n).exitRc (worker n).termRc
    (fun _ => false) (fun _ => true) (some rid)

/-- Stage-ordering specification (from the claim wording): the stages a
pipeline run invokes are the catalog prefix up to and including the first
stage whose exit code is non-zero. -/
def specCutStages (rcOf : List Nat → Int) : List (List Nat) → List (List Nat)
  | [] => []
  | n :: ns => if rcOf n = 0 then n :: specCutStages rcOf ns else [n]

/-- First failing stage (with its accumulated output) in catalog order. -/
def specFirstFail (rcOf : List Nat → Int) (outOf : List Nat → List Nat) :
    List (List Nat) → Option (List Nat × List Nat)
  | [] => none
  | n :: ns => if rcOf n = 0 then specFirstFail rcOf outOf ns else some (n, outOf n)

/-- Per-line accumulation specification: the combined-output lines are the
rstripped lines classified as log lines. -/
def specLogs (rid : Option (List Nat)) (lines : List (List Nat)) : List (List Nat) :=
  lines.filterMap (fun l =>
    match processLine rid l with
    | .log m => some m
    | _ => none)

/-- Per-line event specification: a progress payload for progress lines, a
log event for log lines, nothing for dropped lines. -/
def specEvents (rid : Option (List Nat)) (lines : List (List Nat)) : List Json :=
  lines.filterMap (fun l =>
    match processLine rid l with
    | .progress p => some p
    | .log m => some (evLog m)
    | .dropped => none)

/-- "The run is reported to the client as stopped": some event is either a
`status` event with status `stopped` or the `"Audit run stopped by user"`
error (the claim's vocabulary). -/
def isStoppedReport (e : Json) : Bool :=
  match e with
  | .obj kvs =>
    (lookupKey kvs (lit "type") == some (jstr "status") &&
     lookupKey kvs (lit "status") == some (jstr "stopped")) ||
    lookupKey kvs (lit "error") == some (.str (lit "Audit run stopped by user"))
  | _ => false

/-- Whether any emitted event reports the run as stopped. -/
def reportedStopped (events : List Json) : Bool := events.any isStoppedReport

/-- Whether a JSON value is a string of ASCII characters (the only values
`hmac.compare_digest` accepts against the computed hex digest without
raising `TypeError`). -/
def isAsciiStrVal : Json → Bool
  | .str s => isAsciiList s
  | _ => false

/-! ## Concrete inputs for witnesses and counterexamples -/

/-- The first catalog stage name. -/
def c01 : List Nat := lit "01_crawl_citizens_images.py"

/-- A concrete well-formed message for the framing round-trip witness. -/
def M0 : Json :=
  .obj [(lit "command", jstr "run"), (lit "mode", jstr "pipeline"),
        (lit "n", .num (-7)), (lit "flags", .arr [.bool true, .null])]

/-- The frame `_write_message` produces for `M0`. -/
def bs0 : List Nat :=
  match writeMessage M0 with
  | some b => b
  | none => []

/-- A malformed progress line whose remainder is valid JSON but not an
object: `json.loads` succeeds, the `isinstance` check fails, and the
`continue` drops the line entirely. -/
def dropLine : List Nat := lit "AUDIT_PROGRESS 42"

/-- Concrete worker behaviour: one plain output line, clean exit,
SIGTERM exit code -15 when terminated. -/
def worker0 : List Nat → WorkerBeh :=
  fun _ => { outLines := [lit "hello"], exitRc := 0, termRc := -15 }

/-- A run id used in concrete scenarios. -/
def rid0 : List Nat := lit "8f2a"

/-- A command with a non-string `signature` value: `command.pop` hands the
int to `hmac.compare_digest`, which raises `TypeError`. -/
def cmdBadSig : List (List Nat × Json) :=
  [(lit "command", jstr "status"), (SIG_KEY, .num 5)]

/-- A command with no `signature` field at all. -/
def cmdNoSig : List (List Nat × Json) := [(lit "command", jstr "status")]

/-- A concrete secret. -/
def key0 : List Nat := lit "k"

/-- The per-stage `StageRun` record `pipeLoop` builds from a script
result. -/
def mkStageRun (res : ScriptRes) (nm : List Nat) : StageRun :=
  { name := .str nm, spawned := res.spawned, terminated := res.terminated,
    rc := res.rc, output := res.output }

/-- The two events written before a stage's worker runs (lines 217-218). -/
def preEvents (nm rid : List Nat) : List Json :=
  [evStatus (lit "running") (some rid) (some (lit "Running " ++ nm)) (some (.str nm)),
   evStageStart (.str nm) rid]

/-! ## Helper lemmas -/

/-- Every `Json` value has positive size. -/
theorem json_sizeOf_pos (v : Json) : 1 ≤ sizeOf v := by
  cases v <;> simp

/-- `natDigsF` does not depend on the fuel once it covers the value. -/
theorem natDigsF_fuel : ∀ f1 : Nat, ∀ f2 n, n < f1 → n < f2 →
    natDigsF f1 n = natDigsF f2 n := by
  intro f1
  induction f1 using Nat.strong_induction_on with
  | _ f1 ih =>
    intro f2 n h1 h2
    cases f1 with
    | zero => omega
    | succ a =>
      cases f2 with
      | zero => omega
      | succ b =>
        show natDigsF (a + 1) n = natDigsF (b + 1) n
        rw [natDigsF, natDigsF]
        by_cases hn : n < 10
        · rw [if_pos hn, if_pos hn]
        · rw [if_neg hn, if_neg hn]
          rw [ih a (by omega) b (n / 10) (by omega) (by omega)]

/-- Unfolding equation for `natDigs`. -/
theorem natDigs_eq (n : Nat) :
    natDigs n = if n < 10 then [n] else natDigs (n / 10) ++ [n % 10] := by
  unfold natDigs
  rw [natDigsF]
  by_cases hn : n < 10
  · rw [if_pos hn, if_pos hn]
  · rw [if_neg hn, if_neg hn, natDigsF_fuel n (n / 10 + 1) (n / 10) (by omega) (by omega)]

/-- `serValF`/`serArrF`/`serObjF` do not depend on the fuel once it covers
the size. -/
theorem serF_fuel : ∀ f1 : Nat,
    (∀ f2 (v : Json), sizeOf v ≤ f1 → sizeOf v ≤ f2 → serValF f1 v = serValF f2 v) ∧
    (∀ f2 (xs : List Json), sizeOf xs ≤ f1 → sizeOf xs ≤ f2 → serArrF f1 xs = serArrF f2 xs) ∧
    (∀ f2 (kvs : List (List Nat × Json)), sizeOf kvs ≤ f1 → sizeOf kvs ≤ f2 →
      serObjF f1 kvs = serObjF f2 kvs) := by
  intro f1
  induction f1 using Nat.strong_induction_on with
  | _ f1 ih =>
    refine ⟨?_, ?_, ?_⟩
    · intro f2 v h1 h2
      have hp := json_sizeOf_pos v
      cases f1 with
      | zero => omega
      | succ a =>
        cases f2 with
        | zero => omega
        | succ b =>
          cases v with
          | null => rfl
          | bool x => cases x <;> rfl
          | num n => rfl
          | str s2 => rfl
          | arr xs =>
            cases xs with
            | nil => rfl
            | cons x xs =>
              simp only [Json.arr.sizeOf_spec, List.cons.sizeOf_spec] at h1 h2
              have hx := json_sizeOf_pos x
              show 91 :: (serValF a x ++ serArrF a xs) = 91 :: (serValF b x ++ serArrF b xs)
              rw [(ih a (by omega)).1 b x (by omega) (by omega),
                (ih a (by omega)).2.1 b xs (by omega) (by omega)]
          | obj kvs =>
            cases kvs with
            | nil => rfl
            | cons kv kvs =>
              obtain ⟨k, w⟩ := kv
              simp only [Json.obj.sizeOf_spec, List.cons.sizeOf_spec,
                Prod.mk.sizeOf_spec] at h1 h2
              have hw := json_sizeOf_pos w
              show 123 :: (serStr k ++ 58 :: 32 :: (serValF a w ++ serObjF a kvs)) =
                123 :: (serStr k ++ 58 :: 32 :: (serValF b w ++ serObjF b kvs))
              rw [(ih a (by omega)).1 b w (by omega) (by omega),
                (ih a (by omega)).2.2 b kvs (by omega) (by omega)]
    · intro f2 xs h1 h2
      cases f1 with
      | zero => cases xs <;> simp at h1
      | succ a =>
        cases f2 with
        | zero => cases xs <;> simp at h2
        | succ b =>
          cases xs with
          | nil => rfl
          | cons x xs =>
            simp only [List.cons.sizeOf_spec] at h1 h2
            have hx := json_sizeOf_pos x
            show 44 :: 32 :: (serValF a x ++ serArrF a xs) =
              44 :: 32 :: (serValF b x ++ serArrF b xs)
            rw [(ih a (by omega)).1 b x (by omega) (by omega),
              (ih a (by omega)).2.1 b xs (by omega) (by omega)]
    · intro f2 kvs h1 h2
      cases f1 with
      | zero => cases kvs <;> simp at h1
      | succ a =>
        cases f2 with
        | zero => cases kvs <;> simp at h2
        | succ b =>
          cases kvs with
          | nil => rfl
          | cons kv kvs =>
            obtain ⟨k, w⟩ := kv
            simp only [List.cons.sizeOf_spec, Prod.mk.sizeOf_spec] at h1 h2
            have hw := json_sizeOf_pos w
            show 44 :: 32 :: (serStr k ++ 58 :: 32 :: (serValF a w ++ serObjF a kvs)) =
              44 :: 32 :: (serStr k ++ 58 :: 32 :: (serValF b w ++ serObjF b kvs))
            rw [(ih a (by omega)).1 b w (by omega) (by omega),
              (ih a (by omega)).2.2 b kvs (by omega) (by omega)]

/-- Serialization of `null`. -/
@[simp] theorem serVal_null : serVal .null = [110, 117, 108, 108] := rfl

/-- Serialization of `true`. -/
@[simp] theorem serVal_true : serVal (.bool true) = [116, 114, 117, 101] := rfl

/-- Serialization of `false`. -/
@[simp] theorem serVal_false : serVal (.bool false) = [102, 97, 108, 115, 101] := rfl

/-- Serialization of a number. -/
@[simp] theorem serVal_num (n : Int) : serVal (.num n) = serInt n := by
  unfold serVal
  rw [show sizeOf (Json.num n) = sizeOf n + 1 from by simp; omega]
  rfl

/-- Serialization of a string. -/
@[simp] theorem serVal_str (s : List Nat) : serVal (.str s) = serStr s := by
  unfold serVal
  rw [show sizeOf (Json.str s) = sizeOf s + 1 from by simp; omega]
  rfl

/-- Serialization of the empty array. -/
@[simp] theorem serVal_arrNil : serVal (.arr []) = [91, 93] := rfl

/-- Serialization of a nonempty array. -/
@[simp] theorem serVal_arrCons (x : Json) (xs : List Json) :
    serVal (.arr (x :: xs)) = 91 :: (serVal x ++ serArrRest xs) := by
  unfold serVal serArrRest
  rw [show sizeOf (Json.arr (x :: xs)) = (1 + sizeOf x + sizeOf xs) + 1 from by
    simp; omega]
  show 91 :: (serValF (1 + sizeOf x + sizeOf xs) x ++ serArrF (1 + sizeOf x + sizeOf xs) xs) = _
  rw [(serF_fuel (1 + sizeOf x + sizeOf xs)).1 (sizeOf x) x (by omega) (le_refl _),
    (serF_fuel (1 + sizeOf x + sizeOf xs)).2.1 (sizeOf xs) xs (by omega) (le_refl _)]

/-- Serialization of the empty object. -/
@[simp] theorem serVal_objNil : serVal (.obj []) = [123, 125] := rfl

/-- Serialization of a nonempty object. -/
@[simp] theorem serVal_objCons (k : List Nat) (w : Json) (kvs : List (List Nat × Json)) :
    serVal (.obj ((k, w) :: kvs)) =
      123 :: (serStr k ++ 58 :: 32 :: (serVal w ++ serObjRest kvs)) := by
  unfold serVal serObjRest
  rw [show sizeOf (Json.obj ((k, w) :: kvs)) = (1 + (1 + sizeOf k + sizeOf w) + sizeOf kvs) + 1
    from by simp; omega]
  show 123 :: (serStr k ++ 58 :: 32 ::
    (serValF (1 + (1 + sizeOf k + sizeOf w) + sizeOf kvs) w ++
     serObjF (1 + (1 + sizeOf k + sizeOf w) + sizeOf kvs) kvs)) = _
  rw [(serF_fuel _).1 (sizeOf w) w (by omega) (le_refl _),
    (serF_fuel _).2.2 (sizeOf kvs) kvs (by omega) (le_refl _)]

/-- Array tail serialization: empty. -/
@[simp] theorem serArrRest_nil : serArrRest [] = [93] := rfl

/-- Array tail serialization: cons. -/
@[simp] theorem serArrRest_cons (x : Json) (xs : List Json) :
    serArrRest (x :: xs) = 44 :: 32 :: (serVal x ++ serArrRest xs) := by
  unfold serVal serArrRest
  rw [show sizeOf (x :: xs) = (sizeOf x + sizeOf xs) + 1 from by simp; omega]
  show 44 :: 32 :: (serValF (sizeOf x + sizeOf xs) x ++ serArrF (sizeOf x + sizeOf xs) xs) = _
  rw [(serF_fuel _).1 (sizeOf x) x (by omega) (le_refl _),
    (serF_fuel _).2.1 (sizeOf xs) xs (by omega) (le_refl _)]

/-- Object tail serialization: empty. -/
@[simp] theorem serObjRest_nil : serObjRest [] = [125] := rfl

/-- Object tail serialization: cons. -/
@[simp] theorem serObjRest_cons (k : List Nat) (w : Json) (kvs : List (List Nat × Json)) :
    serObjRest ((k, w) :: kvs) =
      44 :: 32 :: (serStr k ++ 58 :: 32 :: (serVal w ++ serObjRest kvs)) := by
  unfold serVal serObjRest
  rw [show sizeOf ((k, w) :: kvs) = ((1 + sizeOf k + sizeOf w) + sizeOf kvs) + 1 from by
    simp; omega]
  show 44 :: 32 :: (serStr k ++ 58 :: 32 ::
    (serValF ((1 + sizeOf k + sizeOf w) + sizeOf kvs) w ++
     serObjF ((1 + sizeOf k + sizeOf w) + sizeOf kvs) kvs)) = _
  rw [(serF_fuel _).1 (sizeOf w) w (by omega) (le_refl _),
    (serF_fuel _).2.2 (sizeOf kvs) kvs (by omega) (le_refl _)]

/-- `wfJsonF` does not depend on the fuel once it covers the size. -/
theorem wfJsonF_fuel : ∀ f1 : Nat, ∀ f2 (v : Json), sizeOf v ≤ f1 → sizeOf v ≤ f2 →
    wfJsonF f1 v = wfJsonF f2 v := by
  intro f1
  induction f1 using Nat.strong_induction_on with
  | _ f1 ih =>
    intro f2 v h1 h2
    have hp := json_sizeOf_pos v
    cases f1 with
    | zero => omega
    | succ a =>
      cases f2 with
      | zero => omega
      | succ b =>
        cases v with
        | null => rfl
        | bool x => rfl
        | num n => rfl
        | str s2 => rfl
        | arr xs =>
          cases xs with
          | nil => rfl
          | cons x xs =>
            simp only [Json.arr.sizeOf_spec, List.cons.sizeOf_spec] at h1 h2
            have hx := json_sizeOf_pos x
            show (wfJsonF a x && wfJsonF a (.arr xs)) = (wfJsonF b x && wfJsonF b (.arr xs))
            rw [ih a (by omega) b x (by omega) (by omega),
              ih a (by omega) b (.arr xs) (by simp; omega) (by simp; omega)]
        | obj kvs =>
          cases kvs with
          | nil => rfl
          | cons kv kvs =>
            obtain ⟨k, w⟩ := kv
            simp only [Json.obj.sizeOf_spec, List.cons.sizeOf_spec,
              Prod.mk.sizeOf_spec] at h1 h2
            have hw := json_sizeOf_pos w
            show (validStr k && !(kvs.any (fun kv => kv.1 == k)) && wfJsonF a w &&
                wfJsonF a (.obj kvs)) =
              (validStr k && !(kvs.any (fun kv => kv.1 == k)) && wfJsonF b w &&
                wfJsonF b (.obj kvs))
            rw [ih a (by omega) b w (by omega) (by omega),
              ih a (by omega) b (.obj kvs) (by simp; omega) (by simp; omega)]

/-- Well-formedness of a string value. -/
@[simp] theorem wfJson_str (s : List Nat) : wfJson (.str s) = validStr s := by
  unfold wfJson
  rw [show sizeOf (Json.str s) = sizeOf s + 1 from by simp; omega]
  rfl

/-- Well-formedness of a nonempty array. -/
@[simp] theorem wfJson_arrCons (x : Json) (xs : List Json) :
    wfJson (.arr (x :: xs)) = (wfJson x && wfJson (.arr xs)) := by
  unfold wfJson
  rw [show sizeOf (Json.arr (x :: xs)) = (1 + sizeOf x + sizeOf xs) + 1 from by simp; omega]
  show (wfJsonF (1 + sizeOf x + sizeOf xs) x &&
    wfJsonF (1 + sizeOf x + sizeOf xs) (.arr xs)) = _
  rw [wfJsonF_fuel _ (sizeOf x) x (by omega) (le_refl _),
    wfJsonF_fuel _ (sizeOf (Json.arr xs)) (.arr xs)
      (by simp only [Json.arr.sizeOf_spec]; omega) (le_refl _)]

/-- Well-formedness of a nonempty object. -/
@[simp] theorem wfJson_objCons (k : List Nat) (w : Json) (kvs : List (List Nat × Json)) :
    wfJson (.obj ((k, w) :: kvs)) =
      (validStr k && !(kvs.any (fun kv => kv.1 == k)) && wfJson w && wfJson (.obj kvs)) := by
  unfold wfJson
  rw [show sizeOf (Json.obj ((k, w) :: kvs)) = (1 + (1 + sizeOf k + sizeOf w) + sizeOf kvs) + 1
    from by simp; omega]
  show (validStr k && !(kvs.any (fun kv => kv.1 == k)) &&
    wfJsonF (1 + (1 + sizeOf k + sizeOf w) + sizeOf kvs) w &&
    wfJsonF (1 + (1 + sizeOf k + sizeOf w) + sizeOf kvs) (.obj kvs)) = _
  rw [wfJsonF_fuel _ (sizeOf w) w (by omega) (le_refl _),
    wfJsonF_fuel _ (sizeOf (Json.obj kvs)) (.obj kvs)
      (by simp only [Json.obj.sizeOf_spec]; omega) (le_refl _)]


/-- Taking exactly the length of the left part of an append. -/
theorem take_len_append (l r : List Nat) : (l ++ r).take l.length = l := by
  induction l with
  | nil => simp
  | cons x xs ih => simp [ih]

/-- Dropping exactly the length of the left part of an append. -/
theorem drop_len_append (l r : List Nat) : (l ++ r).drop l.length = r := by
  induction l with
  | nil => simp
  | cons x xs ih => simp [ih]

/-- `struct.unpack` inverts `struct.pack` below `2^32`. -/
theorem unpack_pack (n : Nat) (h : n < 4294967296) :
    unpackU32 (n % 256) (n / 256 % 256) (n / 65536 % 256) (n / 16777216 % 256) = n := by
  unfold unpackU32
  omega

/-- Every decimal digit produced by `natDigs` is below 10. -/
theorem natDigs_lt (n : Nat) : ∀ d ∈ natDigs n, d < 10 := by
  induction n using Nat.strong_induction_on with
  | _ n ih =>
    rw [natDigs_eq]
    split
    · intro d hd
      simp only [List.mem_singleton] at hd
      omega
    · intro d hd
      rw [List.mem_append] at hd
      rcases hd with h | h
      · exact ih (n / 10) (by omega) d h
      · simp only [List.mem_singleton] at h
        omega

/-- `natDigs` never returns the empty list. -/
theorem natDigs_ne_nil (n : Nat) : natDigs n ≠ [] := by
  rw [natDigs_eq]
  split <;> simp

/-- Folding the digit-accumulation step over `natDigs n` recovers `n`. -/
theorem foldTen (n : Nat) : ∀ a,
    (natDigs n).foldl (fun acc d => acc * 10 + d) a =
      a * 10 ^ (natDigs n).length + n := by
  induction n using Nat.strong_induction_on with
  | _ n ih =>
    intro a
    rw [natDigs_eq]
    split
    · simp
    · rename_i h
      rw [List.foldl_append, ih (n / 10) (by omega) a]
      simp only [List.foldl_cons, List.foldl_nil, List.length_append,
        List.length_singleton]
      have hmod : n / 10 * 10 + n % 10 = n := by omega
      calc (a * 10 ^ (natDigs (n / 10)).length + n / 10) * 10 + n % 10
          = a * (10 ^ (natDigs (n / 10)).length * 10) + (n / 10 * 10 + n % 10) := by
            ring
        _ = a * 10 ^ ((natDigs (n / 10)).length + 1) + n := by
            rw [hmod, pow_succ]

/-- Parsing the rendered digits of `n` gives back `n`. -/
theorem digitsVal_natDigs (n : Nat) : digitsVal ((natDigs n).map (· + 48)) = n := by
  unfold digitsVal
  rw [List.foldl_map]
  simp only [Nat.add_sub_cancel]
  rw [foldTen n 0]
  simp

/-- `takeWhile`/`dropWhile` split an all-digits block from a non-digit
continuation. -/
theorem digits_split (xs r : List Nat) (h : ∀ c ∈ xs, isDigitN c = true)
    (hr : ndh r = true) :
    (xs ++ r).takeWhile isDigitN = xs ∧ (xs ++ r).dropWhile isDigitN = r := by
  induction xs with
  | nil =>
    cases r with
    | nil => simp
    | cons c t =>
      simp only [ndh, Bool.not_eq_true'] at hr
      simp [List.takeWhile_cons, List.dropWhile_cons, hr]
  | cons x xs ih =>
    have hx := h x (List.mem_cons_self x xs)
    have ih' := ih (fun c hc => h c (List.mem_cons_of_mem x hc))
    simp [List.takeWhile_cons, List.dropWhile_cons, hx, ih'.1, ih'.2]

/-- `hexVal` inverts `hexDigit` below 16. -/
theorem hexVal_hexDigit (x : Nat) (h : x < 16) : hexVal (hexDigit x) = some x := by
  unfold hexVal hexDigit
  split_ifs <;> first
    | (simp only [Option.some.injEq]; omega)
    | (exfalso; omega)

/-- Decoding one character after the UTF-8 encoding of a valid scalar
recovers the scalar and the remainder. -/
theorem utf8DecodeOne_encodeChar (c : Nat) (bs : List Nat) (h : validScalar c = true) :
    utf8DecodeOne (utf8EncodeChar c ++ bs) = some (c, bs) := by
  have hv : c < 1114112 ∧ (c < 55296 ∨ 57344 ≤ c) := by
    simp only [validScalar, Bool.and_eq_true, decide_eq_true_eq, Bool.not_eq_true',
      Bool.and_eq_false_iff, decide_eq_false_iff_not, not_le, not_lt] at h
    omega
  by_cases h1 : c < 128
  · have e : utf8EncodeChar c = [c] := by simp [utf8EncodeChar, h1]
    rw [e, List.cons_append, List.nil_append, utf8DecodeOne.eq_def]
    simp only []
    rw [if_pos h1]
  · by_cases h2 : c < 2048
    · have e : utf8EncodeChar c = [192 + c / 64, 128 + c % 64] := by
        simp [utf8EncodeChar, h1, h2]
      rw [e]
      show utf8DecodeOne ((192 + c / 64) :: (128 + c % 64) :: bs) = _
      rw [utf8DecodeOne.eq_def]
      simp only []
      rw [if_neg (by omega), if_neg (by omega), if_pos (by omega)]
      have hc1 : isCont (128 + c % 64) = true := by
        simp only [isCont, Bool.and_eq_true, decide_eq_true_eq]
        omega
      simp only [hc1, if_true]
      rw [if_pos (by omega)]
      have hval : (192 + c / 64 - 192) * 64 + (128 + c % 64 - 128) = c := by omega
      rw [hval]
    · by_cases h3 : c < 65536
      · have e : utf8EncodeChar c = [224 + c / 4096, 128 + c / 64 % 64, 128 + c % 64] := by
          simp [utf8EncodeChar, h1, h2, h3]
        rw [e]
        show utf8DecodeOne ((224 + c / 4096) :: (128 + c / 64 % 64) :: (128 + c % 64) :: bs) = _
        rw [utf8DecodeOne.eq_def]
        simp only []
        rw [if_neg (by omega), if_neg (by omega), if_neg (by omega), if_pos (by omega)]
        have hc1 : isCont (128 + c / 64 % 64) = true := by
          simp only [isCont, Bool.and_eq_true, decide_eq_true_eq]
          omega
        have hc2 : isCont (128 + c % 64) = true := by
          simp only [isCont, Bool.and_eq_true, decide_eq_true_eq]
          omega
        simp only [hc1, hc2, Bool.and_self, if_true]
        have hval : (224 + c / 4096 - 224) * 4096 + (128 + c / 64 % 64 - 128) * 64 +
            (128 + c % 64 - 128) = c := by omega
        rw [hval, if_pos ⟨by omega, h⟩]
      · have e : utf8EncodeChar c =
            [240 + c / 262144, 128 + c / 4096 % 64, 128 + c / 64 % 64, 128 + c % 64] := by
          simp [utf8EncodeChar, h1, h2, h3]
        rw [e]
        show utf8DecodeOne ((240 + c / 262144) :: (128 + c / 4096 % 64) ::
          (128 + c / 64 % 64) :: (128 + c % 64) :: bs) = _
        rw [utf8DecodeOne.eq_def]
        simp only []
        rw [if_neg (by omega), if_neg (by omega), if_neg (by omega), if_neg (by omega),
          if_pos (by omega)]
        have hc1 : isCont (128 + c / 4096 % 64) = true := by
          simp only [isCont, Bool.and_eq_true, decide_eq_true_eq]
          omega
        have hc2 : isCont (128 + c / 64 % 64) = true := by
          simp only [isCont, Bool.and_eq_true, decide_eq_true_eq]
          omega
        have hc3 : isCont (128 + c % 64) = true := by
          simp only [isCont, Bool.and_eq_true, decide_eq_true_eq]
          omega
        simp only [hc1, hc2, hc3, Bool.and_self, if_true]
        have hval : (240 + c / 262144 - 240) * 262144 + (128 + c / 4096 % 64 - 128) * 4096 +
            (128 + c / 64 % 64 - 128) * 64 + (128 + c % 64 - 128) = c := by omega
        rw [hval, if_pos ⟨by omega, hv.1⟩]

/-- One encoded character is at least one byte. -/
theorem utf8EncodeChar_ne_nil (c : Nat) : utf8EncodeChar c ≠ [] := by
  unfold utf8EncodeChar
  split_ifs <;> simp

/-- Fuel-indexed UTF-8 round-trip. -/
theorem utf8DecodeAux_encode (s : List Nat) : ∀ f, s.length ≤ f →
    validStr s = true → utf8DecodeAux f (utf8Encode s) = some s := by
  induction s with
  | nil =>
    intro f _ _
    cases f <;> rfl
  | cons c cs ih =>
    intro f hf h
    simp only [validStr, List.all_cons, Bool.and_eq_true] at h
    cases f with
    | zero => simp at hf
    | succ f =>
      show utf8DecodeAux (f + 1) (utf8EncodeChar c ++ utf8Encode cs) = _
      obtain ⟨b, t, e⟩ : ∃ b t, utf8EncodeChar c = b :: t := by
        cases he : utf8EncodeChar c with
        | nil => exact absurd he (utf8EncodeChar_ne_nil c)
        | cons b t => exact ⟨b, t, rfl⟩
      rw [e, List.cons_append, utf8DecodeAux, ← List.cons_append, ← e,
        utf8DecodeOne_encodeChar c _ h.1]
      show (utf8DecodeAux f (utf8Encode cs)).map (c :: ·) = _
      rw [ih f (by simpa using hf) h.2]
      rfl

/-- A string is no longer than its UTF-8 encoding. -/
theorem len_le_utf8Encode (s : List Nat) : s.length ≤ (utf8Encode s).length := by
  induction s with
  | nil => simp
  | cons c cs ih =>
    show _ ≤ (utf8EncodeChar c ++ utf8Encode cs).length
    rw [List.length_append]
    have h1 : 1 ≤ (utf8EncodeChar c).length := by
      cases he : utf8EncodeChar c with
      | nil => exact absurd he (utf8EncodeChar_ne_nil c)
      | cons b t => simp
    simp only [List.length_cons]
    omega

/-- UTF-8 round-trip for strings of valid scalar values. -/
theorem utf8Decode_encode (s : List Nat) (h : validStr s = true) :
    utf8Decode (utf8Encode s) = some s :=
  utf8DecodeAux_encode s (utf8Encode s).length (len_le_utf8Encode s) h

/-- Parsing one string unit after `escapeChar` recovers the character. -/
theorem parseStrStep_escape (c : Nat) (tail : List Nat) :
    parseStrStep (escapeChar c ++ tail) = some (some c, tail) := by
  unfold escapeChar
  by_cases e34 : c = 34
  · simp only [e34, if_true, if_pos]
    show parseStrStep (92 :: 34 :: tail) = _
    rw [parseStrStep.eq_def]
    simp [unescSimple]
  · rw [if_neg e34]
    by_cases e92 : c = 92
    · simp only [e92, if_true, if_pos]
      show parseStrStep (92 :: 92 :: tail) = _
      rw [parseStrStep.eq_def]
      simp [unescSimple]
    · rw [if_neg e92]
      by_cases e8 : c = 8
      · simp only [e8, if_true, if_pos]
        show parseStrStep (92 :: 98 :: tail) = _
        rw [parseStrStep.eq_def]
        simp [unescSimple]
      · rw [if_neg e8]
        by_cases e9 : c = 9
        · simp only [e9, if_true, if_pos]
          show parseStrStep (92 :: 116 :: tail) = _
          rw [parseStrStep.eq_def]
          simp [unescSimple]
        · rw [if_neg e9]
          by_cases e10 : c = 10
          · simp only [e10, if_true, if_pos]
            show parseStrStep (92 :: 110 :: tail) = _
            rw [parseStrStep.eq_def]
            simp [unescSimple]
          · rw [if_neg e10]
            by_cases e12 : c = 12
            · simp only [e12, if_true, if_pos]
              show parseStrStep (92 :: 102 :: tail) = _
              rw [parseStrStep.eq_def]
              simp [unescSimple]
            · rw [if_neg e12]
              by_cases e13 : c = 13
              · simp only [e13, if_true, if_pos]
                show parseStrStep (92 :: 114 :: tail) = _
                rw [parseStrStep.eq_def]
                simp [unescSimple]
              · rw [if_neg e13]
                by_cases elo : c < 32
                · rw [if_pos elo]
                  unfold uEsc
                  have z1 : c / 4096 % 16 = 0 := by omega
                  have z2 : c / 256 % 16 = 0 := by omega
                  have z3 : c / 16 % 16 = c / 16 := by omega
                  rw [z1, z2, z3]
                  show parseStrStep (92 :: 117 :: hexDigit 0 :: hexDigit 0 ::
                    hexDigit (c / 16) :: hexDigit (c % 16) :: tail) = _
                  rw [parseStrStep.eq_def]
                  simp [hexVal_hexDigit 0 (by omega), hexVal_hexDigit (c / 16) (by omega),
                    hexVal_hexDigit (c % 16) (by omega)]
                  omega
                · rw [if_neg elo]
                  show parseStrStep (c :: tail) = _
                  rw [parseStrStep.eq_def]
                  simp only []
                  rw [if_neg e34, if_neg e92]

/-- Fuel-indexed string-body round-trip. -/
theorem parseStrAux_escape (s : List Nat) : ∀ f rest, s.length + 1 ≤ f →
    parseStrAux f (escapeStr s ++ (34 :: rest)) = some (s, rest) := by
  induction s with
  | nil =>
    intro f rest hf
    cases f with
    | zero => omega
    | succ f =>
      show parseStrAux (f + 1) (34 :: rest) = _
      rw [parseStrAux]
      have : parseStrStep (34 :: rest) = some (none, rest) := by
        rw [parseStrStep.eq_def]
        simp
      rw [this]
  | cons c cs ih =>
    intro f rest hf
    cases f with
    | zero => simp at hf
    | succ f =>
      show parseStrAux (f + 1) ((escapeChar c ++ escapeStr cs) ++ (34 :: rest)) = _
      rw [List.append_assoc, parseStrAux, parseStrStep_escape]
      show (parseStrAux f (escapeStr cs ++ 34 :: rest)).map (fun pr => (c :: pr.1, pr.2)) = _
      rw [ih f rest (by simpa using hf)]
      rfl

/-- `escapeChar` always produces at least one character. -/
theorem escapeChar_ne_nil (c : Nat) : escapeChar c ≠ [] := by
  unfold escapeChar uEsc
  split_ifs <;> simp

/-- A string is no longer than its escaped rendering. -/
theorem len_le_escapeStr (s : List Nat) : s.length ≤ (escapeStr s).length := by
  induction s with
  | nil => simp [escapeStr]
  | cons c cs ih =>
    show _ ≤ (escapeChar c ++ escapeStr cs).length
    rw [List.length_append]
    have h1 : 1 ≤ (escapeChar c).length := by
      cases he : escapeChar c with
      | nil => exact absurd he (escapeChar_ne_nil c)
      | cons b t => simp
    simp only [List.length_cons]
    omega

/-- String-body round-trip: parsing the escaped rendering of `s` followed
by the closing quote recovers `s` and the remainder. -/
theorem parseStrBody_escape (s rest : List Nat) :
    parseStrBody (escapeStr s ++ (34 :: rest)) = some (s, rest) := by
  unfold parseStrBody
  apply parseStrAux_escape
  rw [List.length_append]
  have := len_le_escapeStr s
  simp only [List.length_cons]
  omega

/-- `jsize` is positive. -/
theorem jsize_pos (v : Json) : 1 ≤ jsize v := by
  induction v using jsize.induct <;> simp [jsize]

/-- Head shape of a serialized value: nonempty, not whitespace, and not a
closing bracket, closing brace, comma or colon. -/
theorem serVal_head (v : Json) : ∃ c t, serVal v = c :: t ∧ isWs c = false ∧
    c ≠ 93 ∧ c ≠ 125 ∧ c ≠ 44 ∧ c ≠ 58 := by
  have digitFacts : ∀ c, 48 ≤ c → c ≤ 57 →
      isWs c = false ∧ c ≠ 93 ∧ c ≠ 125 ∧ c ≠ 44 ∧ c ≠ 58 := by
    intro c h1 h2
    refine ⟨?_, by omega, by omega, by omega, by omega⟩
    simp only [isWs, Bool.or_eq_false_iff, decide_eq_false_iff_not]
    omega
  cases v with
  | null => exact ⟨110, _, rfl, by decide, by decide, by decide, by decide, by decide⟩
  | bool b =>
    cases b with
    | true => exact ⟨116, _, rfl, by decide, by decide, by decide, by decide, by decide⟩
    | false => exact ⟨102, _, rfl, by decide, by decide, by decide, by decide, by decide⟩
  | num n =>
    rw [serVal_num]
    unfold serInt
    by_cases hn : n < 0
    · rw [if_pos hn]
      exact ⟨45, _, rfl, by decide, by decide, by decide, by decide, by decide⟩
    · rw [if_neg hn]
      cases hd : natDigs n.natAbs with
      | nil => exact absurd hd (natDigs_ne_nil _)
      | cons d ds =>
        have hdlt : d < 10 := natDigs_lt _ d (by rw [hd]; exact List.mem_cons_self d ds)
        have hfacts := digitFacts (d + 48) (by omega) (by omega)
        exact ⟨d + 48, ds.map (· + 48), rfl, hfacts.1, hfacts.2.1, hfacts.2.2.1,
          hfacts.2.2.2.1, hfacts.2.2.2.2⟩
  | str s =>
    exact ⟨34, _, by rw [serVal_str]; rfl, by decide, by decide, by decide, by decide,
      by decide⟩
  | arr xs =>
    cases xs with
    | nil => exact ⟨91, _, rfl, by decide, by decide, by decide, by decide, by decide⟩
    | cons x xs =>
      exact ⟨91, _, by rw [serVal_arrCons], by decide, by decide, by decide, by decide,
        by decide⟩
  | obj kvs =>
    cases kvs with
    | nil => exact ⟨123, _, rfl, by decide, by decide, by decide, by decide, by decide⟩
    | cons kv kvs =>
      obtain ⟨k, v⟩ := kv
      exact ⟨123, _, by rw [serVal_objCons], by decide, by decide, by decide, by decide,
        by decide⟩

/-- The serialized tail of an array continues with `,` or `]`: no digit. -/
theorem ndh_serArrRest (xs : List Json) (rest : List Nat) :
    ndh (serArrRest xs ++ rest) = true := by
  cases xs with
  | nil => rfl
  | cons x xs => rw [serArrRest_cons]; rfl

/-- The serialized tail of an object continues with `,` or a closing
brace: no digit. -/
theorem ndh_serObjRest (kvs : List (List Nat × Json)) (rest : List Nat) :
    ndh (serObjRest kvs ++ rest) = true := by
  cases kvs with
  | nil => rfl
  | cons kv kvs =>
    obtain ⟨k, v⟩ := kv
    rw [serObjRest_cons]
    rfl

/-- `skipWs` does nothing on a non-whitespace head. -/
theorem skipWs_cons (c : Nat) (l : List Nat) (h : isWs c = false) :
    skipWs (c :: l) = c :: l := by
  simp [skipWs, List.dropWhile_cons, h]

/-- `parseVal` ignores one leading space. -/
theorem parseVal_space (f : Nat) (l : List Nat) :
    parseVal f (32 :: l) = parseVal f l := by
  cases f with
  | zero => rfl
  | succ f =>
    rw [parseVal, parseVal]
    have : skipWs (32 :: l) = skipWs l := by
      simp [skipWs, List.dropWhile_cons, isWs]
    rw [this]

/-- Hex digit characters are valid scalars. -/
theorem hexDigit_valid (y : Nat) (h : y < 16) : validScalar (hexDigit y) = true := by
  unfold hexDigit validScalar
  split_ifs <;> simp <;> omega

/-- `validStr` distributes over append. -/
theorem validStr_append (a b : List Nat) :
    validStr (a ++ b) = (validStr a && validStr b) := by
  simp [validStr, List.all_append]

/-- Escaping one valid scalar yields only valid scalars. -/
theorem escapeChar_valid (c : Nat) (h : validScalar c = true) :
    validStr (escapeChar c) = true := by
  unfold escapeChar
  split_ifs with h1 h2 h3 h4 h5 h6 h7 h8
  · decide
  · decide
  · decide
  · decide
  · decide
  · decide
  · decide
  · simp only [uEsc, validStr, List.all_cons, List.all_nil, Bool.and_eq_true]
    exact ⟨by decide, by decide, hexDigit_valid _ (by omega), hexDigit_valid _ (by omega),
      hexDigit_valid _ (by omega), ⟨hexDigit_valid _ (by omega), trivial⟩⟩
  · simp [validStr, h]

/-- Escaping a valid string yields only valid scalars. -/
theorem escapeStr_valid (s : List Nat) (h : validStr s = true) :
    validStr (escapeStr s) = true := by
  induction s with
  | nil => decide
  | cons c cs ih =>
    simp only [validStr, List.all_cons, Bool.and_eq_true] at h
    show validStr (escapeChar c ++ escapeStr cs) = true
    rw [validStr_append, escapeChar_valid c h.1, ih h.2]
    rfl

/-- A serialized string literal consists of valid scalars. -/
theorem serStr_valid (s : List Nat) (h : validStr s = true) :
    validStr (serStr s) = true := by
  unfold serStr
  simp only [validStr, List.all_cons, List.all_append, Bool.and_eq_true]
  refine ⟨by decide, ?_, by decide⟩
  have := escapeStr_valid s h
  simpa [validStr] using this

/-- A serialized integer consists of valid scalars. -/
theorem serInt_valid (n : Int) : validStr (serInt n) = true := by
  have hall : ∀ m : Nat, validStr ((natDigs m).map (· + 48)) = true := by
    intro m
    simp only [validStr, List.all_eq_true]
    intro c hc
    rw [List.mem_map] at hc
    obtain ⟨d, hd, rfl⟩ := hc
    have := natDigs_lt m d hd
    simp only [validScalar, Bool.and_eq_true, decide_eq_true_eq, Bool.not_eq_true',
      Bool.and_eq_false_iff, decide_eq_false_iff_not, not_le, not_lt]
    omega
  unfold serInt
  split_ifs
  · simp only [validStr, List.all_cons, Bool.and_eq_true]
    exact ⟨by decide, by simpa [validStr] using hall n.natAbs⟩
  · exact hall n.natAbs

/-- Joint validity of the serializers, by strong induction on `sizeOf`:
the serialization of a well-formed value consists of valid scalars. -/
theorem serVal_valid_all : ∀ n : Nat,
    (∀ v : Json, sizeOf v ≤ n → wfJson v = true → validStr (serVal v) = true) ∧
    (∀ xs : List Json, sizeOf xs ≤ n → wfJson (.arr xs) = true →
      validStr (serArrRest xs) = true) ∧
    (∀ kvs : List (List Nat × Json), sizeOf kvs ≤ n → wfJson (.obj kvs) = true →
      validStr (serObjRest kvs) = true) := by
  intro n
  induction n using Nat.strong_induction_on with
  | _ n ih =>
    refine ⟨?_, ?_, ?_⟩
    · intro v hs hw
      cases v with
      | null => decide
      | bool b => cases b <;> decide
      | num m => rw [serVal_num]; exact serInt_valid m
      | str s =>
        rw [serVal_str]
        exact serStr_valid s (by rw [← wfJson_str]; exact hw)
      | arr xs =>
        cases xs with
        | nil => decide
        | cons x xs =>
          simp only [Json.arr.sizeOf_spec, List.cons.sizeOf_spec] at hs
          rw [wfJson_arrCons] at hw
          simp only [Bool.and_eq_true] at hw
          have hx := (ih (n - 1) (by omega)).1 x (by omega) hw.1
          have hxs := (ih (n - 1) (by omega)).2.1 xs (by omega) hw.2
          rw [serVal_arrCons]
          simp only [validStr, List.all_cons, List.all_append, Bool.and_eq_true]
          exact ⟨by decide, by simpa [validStr] using hx, by simpa [validStr] using hxs⟩
      | obj kvs =>
        cases kvs with
        | nil => decide
        | cons kv kvs =>
          obtain ⟨k, v⟩ := kv
          simp only [Json.obj.sizeOf_spec, List.cons.sizeOf_spec, Prod.mk.sizeOf_spec] at hs
          rw [wfJson_objCons] at hw
          simp only [Bool.and_eq_true] at hw
          have hv := (ih (n - 1) (by omega)).1 v (by omega) hw.1.2
          have hkvs := (ih (n - 1) (by omega)).2.2 kvs (by omega) hw.2
          rw [serVal_objCons]
          simp only [validStr, List.all_cons, List.all_append, Bool.and_eq_true]
          exact ⟨by decide, by simpa [validStr] using serStr_valid k hw.1.1.1, by decide,
            by decide, by simpa [validStr] using hv, by simpa [validStr] using hkvs⟩
    · intro xs hs hw
      cases xs with
      | nil => decide
      | cons x xs =>
        simp only [List.cons.sizeOf_spec] at hs
        rw [wfJson_arrCons] at hw
        simp only [Bool.and_eq_true] at hw
        have hx := (ih (n - 1) (by omega)).1 x (by omega) hw.1
        have hxs := (ih (n - 1) (by omega)).2.1 xs (by omega) hw.2
        rw [serArrRest_cons]
        simp only [validStr, List.all_cons, List.all_append, Bool.and_eq_true]
        exact ⟨by decide, by decide, by simpa [validStr] using hx,
          by simpa [validStr] using hxs⟩
    · intro kvs hs hw
      cases kvs with
      | nil => decide
      | cons kv kvs =>
        obtain ⟨k, v⟩ := kv
        simp only [List.cons.sizeOf_spec, Prod.mk.sizeOf_spec] at hs
        rw [wfJson_objCons] at hw
        simp only [Bool.and_eq_true] at hw
        have hv := (ih (n - 1) (by omega)).1 v (by omega) hw.1.2
        have hkvs := (ih (n - 1) (by omega)).2.2 kvs (by omega) hw.2
        rw [serObjRest_cons]
        simp only [validStr, List.all_cons, List.all_append, Bool.and_eq_true]
        exact ⟨by decide, by decide, by simpa [validStr] using serStr_valid k hw.1.1.1,
          by decide, by decide, by simpa [validStr] using hv, by simpa [validStr] using hkvs⟩

/-- The serialization of a well-formed value consists of valid scalars. -/
theorem serVal_valid (v : Json) (h : wfJson v = true) :
    validStr (serVal v) = true :=
  (serVal_valid_all (sizeOf v)).1 v (le_refl _) h

/-- Joint fuel bound: the parse fuel `jsize` is covered by the length of
the serialization plus one. -/
theorem jsize_le_all : ∀ n : Nat,
    (∀ v : Json, sizeOf v ≤ n → jsize v ≤ (serVal v).length + 1) ∧
    (∀ xs : List Json, sizeOf xs ≤ n → jsize (.arr xs) ≤ (serArrRest xs).length + 1) ∧
    (∀ kvs : List (List Nat × Json), sizeOf kvs ≤ n →
      jsize (.obj kvs) ≤ (serObjRest kvs).length + 1) := by
  intro n
  induction n using Nat.strong_induction_on with
  | _ n ih =>
    refine ⟨?_, ?_, ?_⟩
    · intro v hs
      cases v with
      | null => simp [jsize]
      | bool b => cases b <;> simp [jsize]
      | num m => simp [jsize]
      | str s2 => simp [jsize]
      | arr xs =>
        cases xs with
        | nil => simp [jsize]
        | cons x xs =>
          simp only [Json.arr.sizeOf_spec, List.cons.sizeOf_spec] at hs
          have hx := (ih (n - 1) (by omega)).1 x (by omega)
          have hxs := (ih (n - 1) (by omega)).2.1 xs (by omega)
          rw [serVal_arrCons]
          simp only [jsize, List.length_cons, List.length_append]
          omega
      | obj kvs =>
        cases kvs with
        | nil => simp [jsize]
        | cons kv kvs =>
          obtain ⟨k, v⟩ := kv
          simp only [Json.obj.sizeOf_spec, List.cons.sizeOf_spec, Prod.mk.sizeOf_spec] at hs
          have hv := (ih (n - 1) (by omega)).1 v (by omega)
          have hkvs := (ih (n - 1) (by omega)).2.2 kvs (by omega)
          rw [serVal_objCons]
          simp only [jsize, List.length_cons, List.length_append]
          omega
    · intro xs hs
      cases xs with
      | nil => simp [jsize]
      | cons x xs =>
        simp only [List.cons.sizeOf_spec] at hs
        have hx := (ih (n - 1) (by omega)).1 x (by omega)
        have hxs := (ih (n - 1) (by omega)).2.1 xs (by omega)
        rw [serArrRest_cons]
        simp only [jsize, List.length_cons, List.length_append]
        omega
    · intro kvs hs
      cases kvs with
      | nil => simp [jsize]
      | cons kv kvs =>
        obtain ⟨k, v⟩ := kv
        simp only [List.cons.sizeOf_spec, Prod.mk.sizeOf_spec] at hs
        have hv := (ih (n - 1) (by omega)).1 v (by omega)
        have hkvs := (ih (n - 1) (by omega)).2.2 kvs (by omega)
        rw [serObjRest_cons]
        simp only [jsize, List.length_cons, List.length_append]
        omega

/-- The parse fuel `jsize v` is at most the serialized length plus one. -/
theorem jsize_le_ser (v : Json) : jsize v ≤ (serVal v).length + 1 :=
  (jsize_le_all (sizeOf v)).1 v (le_refl _)

/-- `parseKv` ignores one leading space. -/
theorem parseKv_space (f : Nat) (l : List Nat) :
    parseKv f (32 :: l) = parseKv f l := by
  cases f with
  | zero => rfl
  | succ f =>
    rw [parseKv, parseKv]
    have : skipWs (32 :: l) = skipWs l := by
      simp [skipWs, List.dropWhile_cons, isWs]
    rw [this]

/-- `parseVal` on an input headed by a decimal digit parses the maximal
digit block as a number. -/
theorem parseVal_digitHead (f : Nat) (c : Nat) (r : List Nat) (h48 : 48 ≤ c)
    (h57 : c ≤ 57) :
    parseVal (f + 1) (c :: r) =
      some (.num (digitsVal ((c :: r).takeWhile isDigitN)), (c :: r).dropWhile isDigitN) := by
  rw [parseVal.eq_def]
  simp only []
  have hws : skipWs (c :: r) = c :: r := skipWs_cons c r (by
    simp only [isWs, Bool.or_eq_false_iff, decide_eq_false_iff_not]
    omega)
  rw [hws]
  simp only []
  rw [if_neg (by omega), if_neg (by omega), if_neg (by omega), if_neg (by omega),
    if_neg (by omega)]
  rw [if_pos (by simp only [isDigitN, Bool.and_eq_true, decide_eq_true_eq]; omega)]

/-- Every rendered digit character is a digit. -/
theorem serDigits_all (m : Nat) :
    ∀ c ∈ (natDigs m).map (· + 48), isDigitN c = true := by
  intro c hc
  rw [List.mem_map] at hc
  obtain ⟨d, hd, rfl⟩ := hc
  have := natDigs_lt m d hd
  simp only [isDigitN, Bool.and_eq_true, decide_eq_true_eq]
  omega

/-- `parseVal` on an input headed by a minus sign. -/
theorem parseVal_minusHead (f : Nat) (r : List Nat) :
    parseVal (f + 1) (45 :: r) =
      (if (r.takeWhile isDigitN).isEmpty = true then none
       else some (.num (-(digitsVal (r.takeWhile isDigitN) : Int)),
         r.dropWhile isDigitN)) := by
  rw [parseVal.eq_def]
  simp only []
  rw [skipWs_cons 45 _ (by decide)]
  simp only []
  rw [if_neg (by decide), if_neg (by decide), if_neg (by decide), if_neg (by decide),
    if_pos trivial]

/-- Parsing the serialized form of an integer recovers it. -/
theorem parseVal_serInt (f : Nat) (n : Int) (rest : List Nat) (hr : ndh rest = true) :
    parseVal (f + 1) (serInt n ++ rest) = some (.num n, rest) := by
  unfold serInt
  by_cases hn : n < 0
  · rw [if_pos hn, List.cons_append, parseVal_minusHead]
    obtain ⟨htake, hdrop⟩ := digits_split ((natDigs n.natAbs).map (· + 48)) rest
      (serDigits_all n.natAbs) hr
    rw [htake, hdrop]
    have hne : ((natDigs n.natAbs).map (· + 48)).isEmpty = false := by
      cases he : natDigs n.natAbs with
      | nil => exact absurd he (natDigs_ne_nil _)
      | cons d ds => rfl
    rw [hne]
    simp only [Bool.false_eq_true, if_false, digitsVal_natDigs, Option.some.injEq,
      Prod.mk.injEq, and_true]
    congr 1
    omega
  · rw [if_neg hn]
    cases he : natDigs n.natAbs with
    | nil => exact absurd he (natDigs_ne_nil _)
    | cons d ds =>
      have hd : d < 10 := natDigs_lt _ d (by rw [he]; exact List.mem_cons_self d ds)
      rw [List.map_cons, List.cons_append]
      rw [parseVal_digitHead f (d + 48) (ds.map (· + 48) ++ rest) (by omega) (by omega)]
      obtain ⟨htake, hdrop⟩ := digits_split ((natDigs n.natAbs).map (· + 48)) rest
        (serDigits_all n.natAbs) hr
      rw [he, List.map_cons, List.cons_append] at htake hdrop
      rw [htake, hdrop]
      rw [show (d + 48) :: ds.map (· + 48) = (natDigs n.natAbs).map (· + 48) from by
        rw [he, List.map_cons]]
      rw [digitsVal_natDigs]
      simp only [Option.some.injEq, Prod.mk.injEq, and_true]
      congr 1
      omega

/-- `parseVal` after an opening bracket whose inner input is headed by a
value (not whitespace, not an immediate close). -/
theorem parseVal_openBracket (f : Nat) (r : List Nat)
    (hne : ∃ c t, r = c :: t ∧ isWs c = false ∧ c ≠ 93) :
    parseVal (f + 1) (91 :: r) =
      (match parseVal f r with
       | some (v, r3) => (parseArrTail f r3).map (fun pr => (.arr (v :: pr.1), pr.2))
       | none => none) := by
  obtain ⟨c, t, rfl, hws, h93⟩ := hne
  rw [parseVal.eq_def]
  simp only []
  rw [skipWs_cons 91 _ (by decide)]
  simp only [reduceIte]
  rw [skipWs_cons c t hws]
  simp only []
  rw [if_neg h93]
  rw [if_neg (by decide), if_neg (by decide), if_neg (by decide), if_neg (by decide),
    if_neg (by decide), if_neg (by decide)]

/-- The size of any serialized array is at least 2. -/
theorem jsize_arr_ge2 (xs : List Json) : 2 ≤ jsize (.arr xs) := by
  cases xs with
  | nil => simp [jsize]
  | cons x xs =>
    have := jsize_pos x
    simp only [jsize]
    omega

/-- The size of any serialized object is at least 2. -/
theorem jsize_obj_ge2 (kvs : List (List Nat × Json)) : 2 ≤ jsize (.obj kvs) := by
  cases kvs with
  | nil => simp [jsize]
  | cons kv kvs =>
    obtain ⟨k, v⟩ := kv
    have := jsize_pos v
    simp only [jsize]
    omega
/-- Parsing a serialized string literal recovers it. -/
theorem parseVal_serStr (f : Nat) (s rest : List Nat) :
    parseVal (f + 1) (serStr s ++ rest) = some (.str s, rest) := by
  have hshape : serStr s ++ rest = 34 :: (escapeStr s ++ (34 :: rest)) := by
    simp [serStr, List.append_assoc]
  rw [hshape, parseVal.eq_def]
  simp only []
  rw [skipWs_cons 34 _ (by decide)]
  simp only []
  rw [if_neg (by decide), if_neg (by decide), if_neg (by decide), if_pos trivial]
  rw [parseStrBody_escape]
  rfl

/-- `parseVal` after an opening brace whose inner input is headed by a key
(not whitespace, not an immediate close). -/
theorem parseVal_openBrace (f : Nat) (r : List Nat)
    (hne : ∃ c t, r = c :: t ∧ isWs c = false ∧ c ≠ 125) :
    parseVal (f + 1) (123 :: r) =
      (match parseKv f r with
       | some (kv, r3) => (parseObjTail f r3).map (fun pr => (.obj (kv :: pr.1), pr.2))
       | none => none) := by
  obtain ⟨c, t, rfl, hws, h125⟩ := hne
  rw [parseVal.eq_def]
  simp only []
  rw [skipWs_cons 123 _ (by decide)]
  simp only [reduceIte]
  rw [skipWs_cons c t hws]
  simp only []
  rw [if_neg h125]
  rw [if_neg (by decide), if_neg (by decide), if_neg (by decide), if_neg (by decide),
    if_neg (by decide), if_neg (by decide), if_neg (by decide)]

/-- Array tail: a closing bracket ends the array. -/
theorem parseArrTail_close (f : Nat) (r : List Nat) :
    parseArrTail (f + 1) (93 :: r) = some ([], r) := rfl

/-- Array tail: a comma continues with another element. -/
theorem parseArrTail_comma (f : Nat) (r : List Nat) :
    parseArrTail (f + 1) (44 :: 32 :: r) =
      (match parseVal f r with
       | some (v, r2) => (parseArrTail f r2).map (fun pr => (v :: pr.1, pr.2))
       | none => none) := by
  rw [parseArrTail.eq_def]
  simp only []
  rw [skipWs_cons 44 _ (by decide)]
  simp only []
  rw [if_neg (by decide), if_pos trivial, parseVal_space]

/-- Object tail: a closing brace ends the object. -/
theorem parseObjTail_close (f : Nat) (r : List Nat) :
    parseObjTail (f + 1) (125 :: r) = some ([], r) := rfl

/-- Object tail: a comma continues with another entry. -/
theorem parseObjTail_comma (f : Nat) (r : List Nat) :
    parseObjTail (f + 1) (44 :: 32 :: r) =
      (match parseKv f r with
       | some (kv, r2) => (parseObjTail f r2).map (fun pr => (kv :: pr.1, pr.2))
       | none => none) := by
  rw [parseObjTail.eq_def]
  simp only []
  rw [skipWs_cons 44 _ (by decide)]
  simp only []
  rw [if_neg (by decide), if_pos trivial, parseKv_space]

/-- Parsing one object entry: a serialized key, colon, space, then a value. -/
theorem parseKv_strHead (f : Nat) (k r2 : List Nat) :
    parseKv (f + 1) (serStr k ++ 58 :: 32 :: r2) =
      (parseVal f r2).map (fun pr => ((k, pr.1), pr.2)) := by
  have hshape : serStr k ++ 58 :: 32 :: r2 =
      34 :: (escapeStr k ++ (34 :: (58 :: 32 :: r2))) := by
    simp [serStr, List.append_assoc]
  rw [hshape, parseKv.eq_def]
  simp only []
  rw [skipWs_cons 34 _ (by decide)]
  simp only []
  rw [if_pos trivial]
  rw [parseStrBody_escape]
  simp only []
  rw [skipWs_cons 58 _ (by decide)]
  simp only []
  rw [if_pos trivial, parseVal_space]
/-- Parsing inverts serialization: joint statement for values, array tails
and object tails, by strong induction on the parser fuel. -/
theorem parse_ser_all : ∀ f : Nat,
    (∀ v rest, jsize v ≤ f → ndh rest = true →
      parseVal f (serVal v ++ rest) = some (v, rest)) ∧
    (∀ xs rest, jsize (.arr xs) ≤ f → ndh rest = true →
      parseArrTail f (serArrRest xs ++ rest) = some (xs, rest)) ∧
    (∀ kvs rest, jsize (.obj kvs) ≤ f → ndh rest = true →
      parseObjTail f (serObjRest kvs ++ rest) = some (kvs, rest)) := by
  intro f
  induction f using Nat.strong_induction_on with
  | _ f ih =>
    cases f with
    | zero =>
      refine ⟨fun v rest h _ => absurd h (by have := jsize_pos v; omega),
        fun xs rest h _ => absurd h (by have := jsize_arr_ge2 xs; omega),
        fun kvs rest h _ => absurd h (by have := jsize_obj_ge2 kvs; omega)⟩
    | succ f =>
      refine ⟨?_, ?_, ?_⟩
      · intro v rest hsz hrest
        cases v with
        | null => rw [serVal_null]; rfl
        | bool b =>
          cases b with
          | true => rw [serVal_true]; rfl
          | false => rw [serVal_false]; rfl
        | num n => rw [serVal_num]; exact parseVal_serInt f n rest hrest
        | str s => rw [serVal_str]; exact parseVal_serStr f s rest
        | arr xs =>
          cases xs with
          | nil => rw [serVal_arrNil]; rfl
          | cons x xs =>
            simp only [jsize] at hsz
            rw [serVal_arrCons]
            have hshape : (91 :: (serVal x ++ serArrRest xs)) ++ rest =
                91 :: (serVal x ++ (serArrRest xs ++ rest)) := by
              simp [List.append_assoc]
            rw [hshape]
            obtain ⟨c, t, hct, hcw, hc93, _, _, _⟩ := serVal_head x
            rw [parseVal_openBracket f _
              ⟨c, t ++ (serArrRest xs ++ rest), by rw [hct]; rfl, hcw, hc93⟩]
            rw [(ih f (by omega)).1 x (serArrRest xs ++ rest) (by omega)
              (ndh_serArrRest xs rest)]
            simp only []
            rw [(ih f (by omega)).2.1 xs rest (by omega) hrest]
            rfl
        | obj kvs =>
          cases kvs with
          | nil => rw [serVal_objNil]; rfl
          | cons kv kvs =>
            obtain ⟨k, w⟩ := kv
            simp only [jsize] at hsz
            rw [serVal_objCons]
            have hshape : (123 :: (serStr k ++ 58 :: 32 :: (serVal w ++ serObjRest kvs))) ++
                rest = 123 :: (serStr k ++ 58 :: 32 :: (serVal w ++ (serObjRest kvs ++ rest))) := by
              simp [List.append_assoc]
            have hser : serStr k ++ 58 :: 32 :: (serVal w ++ (serObjRest kvs ++ rest)) =
                34 :: (escapeStr k ++
                  (34 :: (58 :: 32 :: (serVal w ++ (serObjRest kvs ++ rest))))) := by
              simp [serStr, List.append_assoc]
            rw [hshape, hser]
            rw [parseVal_openBrace f _ ⟨34, _, rfl, by decide, by decide⟩]
            cases f with
            | zero => exact absurd hsz (by have := jsize_pos w; omega)
            | succ f2 =>
              rw [← hser]
              rw [parseKv_strHead f2 k (serVal w ++ (serObjRest kvs ++ rest))]
              rw [(ih f2 (by omega)).1 w (serObjRest kvs ++ rest) (by omega)
                (ndh_serObjRest kvs rest)]
              simp only [Option.map]
              rw [(ih (f2 + 1) (by omega)).2.2 kvs rest (by omega) hrest]
      · intro xs rest hsz hrest
        cases xs with
        | nil => rw [serArrRest_nil]; exact parseArrTail_close f rest
        | cons x xs =>
          simp only [jsize] at hsz
          rw [serArrRest_cons]
          have hshape : (44 :: 32 :: (serVal x ++ serArrRest xs)) ++ rest =
              44 :: 32 :: (serVal x ++ (serArrRest xs ++ rest)) := by
            simp [List.append_assoc]
          rw [hshape, parseArrTail_comma]
          rw [(ih f (by omega)).1 x (serArrRest xs ++ rest) (by omega)
            (ndh_serArrRest xs rest)]
          simp only []
          rw [(ih f (by omega)).2.1 xs rest (by omega) hrest]
          rfl
      · intro kvs rest hsz hrest
        cases kvs with
        | nil => rw [serObjRest_nil]; exact parseObjTail_close f rest
        | cons kv kvs =>
          obtain ⟨k, w⟩ := kv
          simp only [jsize] at hsz
          rw [serObjRest_cons]
          have hshape : (44 :: 32 :: (serStr k ++ 58 :: 32 :: (serVal w ++ serObjRest kvs))) ++
              rest = 44 :: 32 :: (serStr k ++ 58 :: 32 :: (serVal w ++ (serObjRest kvs ++ rest))) := by
            simp [List.append_assoc]
          rw [hshape, parseObjTail_comma]
          cases f with
          | zero => exact absurd hsz (by have := jsize_pos w; omega)
          | succ f2 =>
            rw [parseKv_strHead f2 k (serVal w ++ (serObjRest kvs ++ rest))]
            rw [(ih f2 (by omega)).1 w (serObjRest kvs ++ rest) (by omega)
              (ndh_serObjRest kvs rest)]
            simp only [Option.map]
            rw [(ih (f2 + 1) (by omega)).2.2 kvs rest (by omega) hrest]

/-- `json.loads` inverts `json.dumps(..., ensure_ascii=False)`. -/
theorem jsonParse_serVal (v : Json) : jsonParse (serVal v) = some v := by
  unfold jsonParse
  have h1 : parseVal ((serVal v).length + 1) (serVal v ++ []) = some (v, []) :=
    (parse_ser_all ((serVal v).length + 1)).1 v [] (by have := jsize_le_ser v; omega) rfl
  rw [List.append_nil] at h1
  rw [h1]
  rfl
/-- Removing a key makes later lookups of that key fail. -/
theorem removeKey_lookup (kvs : List (List Nat × Json)) (k : List Nat) :
    lookupKey (removeKey kvs k) k = none := by
  induction kvs with
  | nil => rfl
  | cons kv rest ih =>
    obtain ⟨k', v⟩ := kv
    unfold removeKey
    by_cases hk : k' = k
    · rw [if_pos hk]; exact ih
    · rw [if_neg hk]; unfold lookupKey; rw [if_neg hk]; exact ih

/-- C3: writing a well-formed (valid scalars, distinct keys) mapping whose
UTF-8 payload fits the 32-bit length prefix and reading the frame back
reconstructs an equal value with nothing left on the stream. -/
theorem C3_framing_roundtrip (kvs : List (List Nat × Json))
    (hw : wfJson (.obj kvs) = true) (frame : List Nat)
    (hf : writeMessage (.obj kvs) = some frame) :
    readMessageFrom frame = .msg (.obj kvs) [] := by
  unfold writeMessage at hf
  simp only [] at hf
  by_cases hlen : (utf8Encode (serVal (.obj kvs))).length < 4294967296
  · rw [if_pos hlen, Option.some.injEq] at hf
    subst hf
    show readMessageFrom
      ((utf8Encode (serVal (.obj kvs))).length % 256 ::
       (utf8Encode (serVal (.obj kvs))).length / 256 % 256 ::
       (utf8Encode (serVal (.obj kvs))).length / 65536 % 256 ::
       (utf8Encode (serVal (.obj kvs))).length / 16777216 % 256 ::
       utf8Encode (serVal (.obj kvs))) = .msg (.obj kvs) []
    unfold readMessageFrom
    simp only [unpack_pack _ hlen, List.take_length, ne_eq, not_true_eq_false,
      if_false, List.drop_length]
    rw [utf8Decode_encode _ (serVal_valid _ hw)]
    simp only []
    rw [jsonParse_serVal]
  · rw [if_neg hlen] at hf
    exact absurd hf (by simp)

/-- C9: a stream that closes after delivering at most 3 length-prefix
bytes reads as end-of-stream, and the session loop terminates cleanly
(no reply, state unchanged, no crash). -/
theorem C9_truncated_length_prefix (secret : Option (List Nat)) (st : HostSt)
    (bs : List Nat) (h : bs.length ≤ 3) :
    readMessageFrom bs = .eof ∧ serveBytes secret st bs = ([], st, false) := by
  have heof : readMessageFrom bs = .eof := by
    match bs, h with
    | [], _ => rfl
    | [_], _ => rfl
    | [_, _], _ => rfl
    | [_, _, _], _ => rfl
  refine ⟨heof, ?_⟩
  unfold serveBytes serveBytesAux
  rw [heof]

/-- C2 (corrected): with no secret every command verifies; with a secret,
verification returns `True` exactly when the command carries a `signature`
field holding the ASCII hex HMAC-SHA256, keyed with the secret, of the
canonical (`sort_keys=True`) JSON serialization of the command without the
signature field; a command without a signature field yields `False`. (A
non-string — or non-ASCII — signature value does not yield `False`: it
raises `TypeError`, see the counterexample.) -/
theorem C2_verify_signature_characterization (key : List Nat)
    (command : List (List Nat × Json)) :
    ((verify_command_signature none command).1 = some true) ∧
    ((verify_command_signature (some key) command).1 = some true ↔
      ∃ s, lookupKey command SIG_KEY = some (.str s) ∧ isAsciiList s = true ∧
        s = expectedHex key command) ∧
    (lookupKey command SIG_KEY = none →
      (verify_command_signature (some key) command).1 = some false) := by
  refine ⟨rfl, ?_, ?_⟩
  · constructor
    · intro h
      unfold verify_command_signature at h
      simp only [] at h
      cases hl : lookupKey command SIG_KEY with
      | none => rw [hl] at h; simp at h
      | some provided =>
        rw [hl] at h
        cases provided with
        | str s =>
          simp only [] at h
          by_cases ha : isAsciiList s = true
          · rw [if_pos ha] at h
            have hb : (s == expectedHex key command) = true := by
              have h2 : some (s == expectedHex key command) = some true := h
              injection h2
            exact ⟨s, rfl, ha, eq_of_beq hb⟩
          · rw [if_neg ha] at h
            exact absurd (show (none : Option Bool) = some true from h) (by simp)
        | null => exact absurd (show (none : Option Bool) = some true from h) (by simp)
        | bool b => exact absurd (show (none : Option Bool) = some true from h) (by simp)
        | num n => exact absurd (show (none : Option Bool) = some true from h) (by simp)
        | arr xs => exact absurd (show (none : Option Bool) = some true from h) (by simp)
        | obj kvs2 => exact absurd (show (none : Option Bool) = some true from h) (by simp)
    · rintro ⟨s, hs, ha, hexp⟩
      unfold verify_command_signature
      simp only []
      rw [hs]
      simp only []
      rw [if_pos ha]
      show some (s == expectedHex key command) = some true
      subst hexp
      simp
  · intro hl
    unfold verify_command_signature
    simp only []
    rw [hl]

/-- C2 counterexample: with a configured secret, a command whose
`signature` value is a number does not make verification return `False`
(as the claim requires for any non-matching signature): the call raises
`TypeError` instead (`hmac.compare_digest` rejects the popped `int`). -/
theorem C2_counterexample :
    (verify_command_signature (some key0) cmdBadSig).1 = none ∧
    (verify_command_signature (some key0) cmdBadSig).1 ≠ some false := by
  refine ⟨rfl, by decide⟩

/-- C10 (corrected): the authenticator is stateless in the host but not
pure in its argument: with no secret, or with a secret and no signature
field, the command mapping is left unchanged; but whenever a secret is
configured and a `signature` field is present, the call removes it from
the command (`command.pop("signature")`), so the field is gone afterwards. -/
theorem C10_verify_mutates_command (key : List Nat)
    (command : List (List Nat × Json)) :
    ((verify_command_signature none command).2 = command) ∧
    (lookupKey command SIG_KEY = none →
      (verify_command_signature (some key) command).2 = command) ∧
    (∀ v, lookupKey command SIG_KEY = some v →
      lookupKey (verify_command_signature (some key) command).2 SIG_KEY = none) := by
  refine ⟨rfl, ?_, ?_⟩
  · intro hl
    unfold verify_command_signature
    rw [hl]
  · intro v hl
    unfold verify_command_signature
    rw [hl]
    cases v with
    | str s =>
      simp only []
      by_cases ha : isAsciiList s = true
      · rw [if_pos ha]; exact removeKey_lookup command SIG_KEY
      · rw [if_neg ha]; exact removeKey_lookup command SIG_KEY
    | null => exact removeKey_lookup command SIG_KEY
    | bool b => exact removeKey_lookup command SIG_KEY
    | num n => exact removeKey_lookup command SIG_KEY
    | arr xs => exact removeKey_lookup command SIG_KEY
    | obj kvs2 => exact removeKey_lookup command SIG_KEY

/-- C10 counterexample: a concrete command carrying a `signature` field
loses it during verification — the mapping is not left unchanged. -/
theorem C10_counterexample :
    lookupKey cmdBadSig SIG_KEY = some (.num 5) ∧
    (verify_command_signature (some key0) cmdBadSig).2 = [(lit "command", jstr "status")] ∧
    lookupKey (verify_command_signature (some key0) cmdBadSig).2 SIG_KEY = none := by
  refine ⟨rfl, rfl, rfl⟩
/-- With the stop flag never set, the read loop of `_run_script` consumes
every line: log lines are accumulated and emitted, progress lines are
emitted only, dropped lines produce nothing. -/
theorem runScriptLoop_noStop (rid : Option (List Nat)) :
    ∀ (lines : List (List Nat)) (i : Nat),
      runScriptLoop rid (fun _ => false) (fun _ => true) i lines =
        (false, specLogs rid lines, specEvents rid lines) := by
  intro lines
  induction lines with
  | nil => intro i; rfl
  | cons l ls ih =>
    intro i
    cases hp : processLine rid l with
    | progress p =>
      simp [runScriptLoop, hp, ih (i + 1), specLogs, specEvents, List.filterMap_cons]
    | dropped =>
      simp [runScriptLoop, hp, ih (i + 1), specLogs, specEvents, List.filterMap_cons]
    | log m =>
      simp [runScriptLoop, hp, ih (i + 1), specLogs, specEvents, List.filterMap_cons]

/-- C6 (corrected): with no stop request, every worker output line is
classified into exactly one of three outcomes: a progress-prefixed line
parsing to a JSON object is emitted as a progress event and excluded from
the accumulated output; a line that is not progress-prefixed, or whose
remainder fails to parse, is accumulated and emitted as a log event; but a
progress-prefixed line whose remainder parses to a valid non-object JSON
value is silently dropped — it is neither emitted nor accumulated. -/
theorem C6_line_classification (rid : Option (List Nat)) :
    (∀ lines i,
      runScriptLoop rid (fun _ => false) (fun _ => true) i lines =
        (false, specLogs rid lines, specEvents rid lines)) ∧
    (∀ l, (∃ p, processLine rid l = .progress p) ∨
      (∃ m, processLine rid l = .log m) ∨ processLine rid l = .dropped) := by
  refine ⟨runScriptLoop_noStop rid, ?_⟩
  intro l
  cases hp : processLine rid l with
  | progress p => exact Or.inl ⟨p, rfl⟩
  | log m => exact Or.inr (Or.inl ⟨m, rfl⟩)
  | dropped => exact Or.inr (Or.inr rfl)

/-- C6 counterexample: the line `AUDIT_PROGRESS 42` carries the progress
prefix and its remainder parses as valid JSON (the number 42), but it is
not an object, so the line is silently dropped: it is neither emitted as
any event nor accumulated in the combined output — contradicting the
claim that no line is silently dropped. -/
theorem C6_counterexample :
    processLine none dropLine = .dropped ∧
    runScriptLoop none (fun _ => false) (fun _ => true) 0 [dropLine] =
      (false, [], []) := by
  refine ⟨rfl, rfl⟩

/-- C8 (corrected): with a secret configured, a command whose signature is
absent — or present as an ASCII string that does not match the expected
hex digest — is answered with the authentication-error reply, the session
continues, and the host state is returned unchanged. (A non-string
signature instead raises and kills the session, see the counterexample.) -/
theorem C8_auth_failure_state_unchanged (key : List Nat) (st : HostSt)
    (kvs : List (List Nat × Json)) :
    (lookupKey kvs SIG_KEY = none →
      handleMsg (some key) st kvs = some (st, [evAuthError], [])) ∧
    (∀ s, lookupKey kvs SIG_KEY = some (.str s) → isAsciiList s = true →
      s ≠ expectedHex key kvs →
      handleMsg (some key) st kvs = some (st, [evAuthError], [])) := by
  constructor
  · intro hl
    have hv : verify_command_signature (some key) kvs = (some false, kvs) := by
      unfold verify_command_signature
      simp only []
      rw [hl]
    unfold handleMsg
    rw [hv]
  · intro s hs ha hne
    have hb : (s == expectedHex key kvs) = false := by
      cases hbe : s == expectedHex key kvs
      · rfl
      · exact absurd (eq_of_beq hbe) hne
    have hv : verify_command_signature (some key) kvs =
        (some false, removeKey kvs SIG_KEY) := by
      unfold verify_command_signature
      simp only []
      rw [hs]
      simp only []
      rw [if_pos ha, hb]
    unfold handleMsg
    rw [hv]

/-- C8 witness: a concrete unsigned command against a configured secret is
rejected with the auth-error reply and the initial state is unchanged. -/
theorem C8_auth_failure_state_unchanged_witness :
    handleMsg (some key0) initHost cmdNoSig = some (initHost, [evAuthError], []) :=
  (C8_auth_failure_state_unchanged key0 initHost cmdNoSig).1 rfl

/-- C8 counterexample: a command carrying a non-string signature does not
produce the auth-error reply — the dispatch raises and the session dies:
no reply is written and the following (well-formed) command is never
processed. -/
theorem C8_counterexample :
    handleMsg (some key0) initHost cmdBadSig = none ∧
    serveMsgs (some key0) initHost [cmdBadSig, cmdNoSig] = ([], initHost, true) := by
  refine ⟨rfl, rfl⟩

/-- C1: the check of `self._running` in `_handle_run` and the
`self._running = True` assignment performed by the spawned pipeline thread
are not atomic: under the schedule h1, h2, t1, t2 (both `run` commands
dispatched before either pipeline thread runs) both commands are accepted
and neither is rejected, contradicting the claimed exactly-one-accepted
invariant, while under h1, t1, h2 the second command is rejected — the
outcome depends on scheduling. -/
theorem C1_run_acceptance_race :
    ((raceExec [.h1, .h2, .t1, .t2]).accepted1 = true ∧
     (raceExec [.h1, .h2, .t1, .t2]).accepted2 = true ∧
     (raceExec [.h1, .h2, .t1, .t2]).rejected1 = false ∧
     (raceExec [.h1, .h2, .t1, .t2]).rejected2 = false) ∧
    ((raceExec [.h1, .t1, .h2]).accepted1 = true ∧
     (raceExec [.h1, .t1, .h2]).accepted2 = false ∧
     (raceExec [.h1, .t1, .h2]).rejected2 = true) := by decide
/-- One step of `pipeLoop` with no stop request, written against
`stageRes`. -/
theorem pipeLoop_step (avail : List (List Nat)) (worker : List Nat → WorkerBeh)
    (rid : List Nat) (mode : Json) (stg : Option Json) (j : Nat)
    (nm : List Nat) (rest : List Json) :
    pipeLoop avail worker rid noStopS noStopL aliveAll mode stg j (.str nm :: rest) =
      (if (stageRes avail worker rid nm).rc = 0 then
        { events := preEvents nm rid ++ (stageRes avail worker rid nm).events ++
            evStageComplete (.str nm) rid ::
              (pipeLoop avail worker rid noStopS noStopL aliveAll mode stg (j + 1)
                rest).events,
          runs := mkStageRun (stageRes avail worker rid nm) nm ::
            (pipeLoop avail worker rid noStopS noStopL aliveAll mode stg (j + 1)
              rest).runs,
          spawns := (if (stageRes avail worker rid nm).spawned then 1 else 0) +
            (pipeLoop avail worker rid noStopS noStopL aliveAll mode stg (j + 1)
              rest).spawns }
      else
        { events := preEvents nm rid ++ (stageRes avail worker rid nm).events ++
            [evStageFailed nm (stageRes avail worker rid nm).output rid],
          runs := [mkStageRun (stageRes avail worker rid nm) nm],
          spawns := if (stageRes avail worker rid nm).spawned then 1 else 0 }) := rfl
/-- With no stop request, the pipeline loop invokes exactly the prefix of
its stage list up to and including the first failing stage, and a failing
stage makes the run end with the stage-failed error event. -/
theorem pipeLoop_noStop (avail : List (List Nat)) (worker : List Nat → WorkerBeh)
    (rid : List Nat) (mode : Json) (stg : Option Json) :
    ∀ (names : List (List Nat)) (j : Nat),
      ((pipeLoop avail worker rid noStopS noStopL aliveAll mode stg j
          (names.map .str)).runs.map (fun sr => sr.name) =
        (specCutStages (fun n => (stageRes avail worker rid n).rc) names).map .str) ∧
      (∀ n out,
        specFirstFail (fun n => (stageRes avail worker rid n).rc)
          (fun n => (stageRes avail worker rid n).output) names = some (n, out) →
        ∃ pre, (pipeLoop avail worker rid noStopS noStopL aliveAll mode stg j
            (names.map .str)).events = pre ++ [evStageFailed n out rid]) := by
  intro names
  induction names with
  | nil =>
    intro j
    refine ⟨rfl, ?_⟩
    intro n out h
    exact absurd h (by simp [specFirstFail])
  | cons nm ns ih =>
    intro j
    rw [List.map_cons, pipeLoop_step]
    by_cases hrc : (stageRes avail worker rid nm).rc = 0
    · rw [if_pos hrc]
      constructor
      · simp only [List.map_cons, specCutStages, if_pos hrc, mkStageRun]
        exact congrArg (Json.str nm :: ·) (ih (j + 1)).1
      · intro n out h
        unfold specFirstFail at h
        rw [if_pos hrc] at h
        obtain ⟨pre, hpre⟩ := (ih (j + 1)).2 n out h
        refine ⟨preEvents nm rid ++ (stageRes avail worker rid nm).events ++
          evStageComplete (.str nm) rid :: pre, ?_⟩
        simp only []
        rw [hpre]
        simp [List.append_assoc]
    · rw [if_neg hrc]
      constructor
      · simp [specCutStages, if_neg hrc, mkStageRun]
      · intro n out h
        unfold specFirstFail at h
        rw [if_neg hrc] at h
        injection h with h2
        obtain ⟨rfl, rfl⟩ : nm = n ∧ (stageRes avail worker rid nm).output = out := by
          have h3 := congrArg Prod.fst h2
          have h4 := congrArg Prod.snd h2
          exact ⟨h3, h4⟩
        exact ⟨preEvents nm rid ++ (stageRes avail worker rid nm).events,
          by simp [List.append_assoc]⟩
/-- C4: in `pipeline` mode with no stop request, the stages invoked are
exactly the catalog prefix up to and including the first stage with a
non-zero exit code (in catalog order, no stage after a failure), and a
failing stage makes the run end with the error event carrying the failed
stage name and its accumulated output. -/
theorem C4_pipeline_catalog_order (avail : List (List Nat))
    (worker : List Nat → WorkerBeh) (rid : List Nat) :
    ((runPipeline avail worker (jstr "pipeline") none rid noStopS noStopL
        aliveAll).runs.map (fun sr => sr.name) =
      (specCutStages (fun n => (stageRes avail worker rid n).rc)
        PIPELINE_STAGES).map .str) ∧
    (∀ n out,
      specFirstFail (fun n => (stageRes avail worker rid n).rc)
        (fun n => (stageRes avail worker rid n).output) PIPELINE_STAGES =
        some (n, out) →
      ∃ pre, (runPipeline avail worker (jstr "pipeline") none rid noStopS noStopL
          aliveAll).events = pre ++ [evStageFailed n out rid]) := by
  have hunf : runPipeline avail worker (jstr "pipeline") none rid noStopS noStopL
      aliveAll =
    { events := evStatus (lit "running") (some rid)
          (some (lit "Audit run started")) none ::
        (pipeLoop avail worker rid noStopS noStopL aliveAll (jstr "pipeline") none 0
          (PIPELINE_STAGES.map .str)).events,
      runs := (pipeLoop avail worker rid noStopS noStopL aliveAll (jstr "pipeline")
        none 0 (PIPELINE_STAGES.map .str)).runs,
      spawns := (pipeLoop avail worker rid noStopS noStopL aliveAll (jstr "pipeline")
        none 0 (PIPELINE_STAGES.map .str)).spawns } := rfl
  constructor
  · rw [hunf]
    exact (pipeLoop_noStop avail worker rid (jstr "pipeline") none PIPELINE_STAGES 0).1
  · intro n out h
    obtain ⟨pre, hpre⟩ :=
      (pipeLoop_noStop avail worker rid (jstr "pipeline") none PIPELINE_STAGES 0).2
        n out h
    refine ⟨evStatus (lit "running") (some rid) (some (lit "Audit run started")) none ::
      pre, ?_⟩
    rw [hunf]
    simp only []
    rw [hpre]
    rfl

/-- C4 witness: with only the first catalog stage installed, the second
stage fails with the synthetic not-found output and the run ends with that
stage-failed event; the invoked stages are the two-stage catalog prefix. -/
theorem C4_pipeline_catalog_order_witness :
    specFirstFail (fun n => (stageRes [c01] worker0 rid0 n).rc)
      (fun n => (stageRes [c01] worker0 rid0 n).output) PIPELINE_STAGES =
      some (lit "02_build_dam_fingerprints.py",
        lit "Script not found: " ++ lit "02_build_dam_fingerprints.py") ∧
    ∃ pre, (runPipeline [c01] worker0 (jstr "pipeline") none rid0 noStopS noStopL
        aliveAll).events = pre ++
        [evStageFailed (lit "02_build_dam_fingerprints.py")
          (lit "Script not found: " ++ lit "02_build_dam_fingerprints.py") rid0] :=
  ⟨by decide, (C4_pipeline_catalog_order [c01] worker0 rid0).2 _ _ (by decide)⟩

/-- C7: a `run` with `mode=stage` and a missing (or empty) stage name is
rejected with the missing-stage error and spawns nothing; an unknown stage
name spawns no worker and the client receives the explicit not-found
failure; and for any named stage exactly that one stage is invoked. -/
theorem C7_stage_mode (avail : List (List Nat)) (worker : List Nat → WorkerBeh)
    (rid : List Nat) (name : List Nat) :
    (runPipeline avail worker (jstr "stage") none rid noStopS noStopL aliveAll =
      { events := [evMissingStage], runs := [], spawns := 0 }) ∧
    (runPipeline avail worker (jstr "stage") (some (jstr "")) rid noStopS noStopL
        aliveAll =
      { events := [evMissingStage], runs := [], spawns := 0 }) ∧
    (name ≠ [] → avail.contains name = false →
      runPipeline avail worker (jstr "stage") (some (.str name)) rid noStopS noStopL
          aliveAll =
        { events := evStatus (lit "running") (some rid)
              (some (lit "Audit run started")) none ::
            (preEvents name rid ++
              [evStageFailed name (lit "Script not found: " ++ name) rid]),
          runs := [{ name := .str name, spawned := false, terminated := false,
                     rc := 1, output := lit "Script not found: " ++ name }],
          spawns := 0 }) ∧
    (name ≠ [] →
      (runPipeline avail worker (jstr "stage") (some (.str name)) rid noStopS noStopL
          aliveAll).runs.map (fun sr => sr.name) = [.str name]) := by
  have htr : ∀ l : List Nat, l ≠ [] → jsonTruthy (.str l) = true := by
    intro l hl
    cases l with
    | nil => exact absurd rfl hl
    | cons a as => rfl
  have hunf : ∀ nm : List Nat, nm ≠ [] →
      runPipeline avail worker (jstr "stage") (some (.str nm)) rid noStopS noStopL
        aliveAll =
      { events := evStatus (lit "running") (some rid)
            (some (lit "Audit run started")) none ::
          (pipeLoop avail worker rid noStopS noStopL aliveAll (jstr "stage")
            (some (.str nm)) 0 [.str nm]).events,
        runs := (pipeLoop avail worker rid noStopS noStopL aliveAll (jstr "stage")
          (some (.str nm)) 0 [.str nm]).runs,
        spawns := (pipeLoop avail worker rid noStopS noStopL aliveAll (jstr "stage")
          (some (.str nm)) 0 [.str nm]).spawns } := by
    intro nm hnm
    unfold runPipeline
    rw [if_pos (by decide)]
    simp only []
    rw [if_pos (htr nm hnm)]
  refine ⟨rfl, rfl, ?_, ?_⟩
  · intro hne hn
    have hsr : stageRes avail worker rid name =
        { spawned := false, terminated := false, rc := 1,
          output := lit "Script not found: " ++ name, events := [] } := by
      unfold stageRes runScript
      rw [hn]
      rfl
    rw [hunf name hne, pipeLoop_step, hsr]
    rw [if_neg (show ¬((1 : Int) = 0) from by omega)]
    rfl
  · intro hne
    rw [hunf name hne]
    have h1 := (pipeLoop_noStop avail worker rid (jstr "stage") (some (.str name))
      [name] 0).1
    simp only [List.map_cons, List.map_nil] at h1
    show (pipeLoop avail worker rid noStopS noStopL aliveAll (jstr "stage")
      (some (.str name)) 0 [.str name]).runs.map (fun sr => sr.name) = [.str name]
    rw [h1]
    unfold specCutStages
    by_cases hrc : (stageRes avail worker rid name).rc = 0
    · rw [if_pos hrc]; rfl
    · rw [if_neg hrc]; rfl

/-- C7 witness: concrete instances — missing stage rejected; the unknown
stage `nope` spawns nothing and yields the explicit not-found failure; the
known single stage is invoked exactly once. -/
theorem C7_stage_mode_witness :
    (runPipeline [c01] worker0 (jstr "stage") none rid0 noStopS noStopL aliveAll =
      { events := [evMissingStage], runs := [], spawns := 0 }) ∧
    (runPipeline [c01] worker0 (jstr "stage") (some (.str (lit "nope"))) rid0 noStopS
        noStopL aliveAll =
      { events := evStatus (lit "running") (some rid0)
            (some (lit "Audit run started")) none ::
          (preEvents (lit "nope") rid0 ++
            [evStageFailed (lit "nope") (lit "Script not found: " ++ lit "nope") rid0]),
        runs := [{ name := .str (lit "nope"), spawned := false, terminated := false,
                   rc := 1, output := lit "Script not found: " ++ lit "nope" }],
        spawns := 0 }) ∧
    ((runPipeline [c01] worker0 (jstr "stage") (some (.str c01)) rid0 noStopS noStopL
        aliveAll).runs.map (fun sr => sr.name) = [.str c01]) :=
  ⟨(C7_stage_mode [c01] worker0 rid0 c01).1,
   (C7_stage_mode [c01] worker0 rid0 (lit "nope")).2.2.1 (by decide) (by decide),
   (C7_stage_mode [c01] worker0 rid0 c01).2.2.2 (by decide)⟩
/-- C5 (corrected): when the stop flag is observed while the worker is
still alive, the runner terminates the worker, stops reading (no output is
accumulated), and `_run_script` returns the definitive `wait()` exit code;
but the run is then reported as a stage *failure* — the non-zero
termination code flows into the ordinary `rc != 0` branch and the client
receives the `Stage failed` error event; no event reports the run as
stopped (there is no post-terminate stop report in `_run_pipeline`). -/
theorem C5_stop_reports_failure (avail : List (List Nat))
    (worker : List Nat → WorkerBeh) (rid name l : List Nat)
    (ls : List (List Nat)) (hav : avail.contains name = true)
    (hlines : (worker name).outLines = l :: ls)
    (hrc : ¬((worker name).termRc = 0)) (hne : name ≠ []) :
    runPipeline avail worker (jstr "stage") (some (.str name)) rid noStopS
        (fun _ _ => true) aliveAll =
      { events := evStatus (lit "running") (some rid)
            (some (lit "Audit run started")) none ::
          (preEvents name rid ++ [evStageFailed name [] rid]),
        runs := [{ name := .str name, spawned := true, terminated := true,
                   rc := (worker name).termRc, output := [] }],
        spawns := 1 } := by
  have htr : jsonTruthy (.str name) = true := by
    cases name with
    | nil => exact absurd rfl hne
    | cons a as => rfl
  have hres : runScript avail name (worker name).outLines (worker name).exitRc
      (worker name).termRc (fun _ => true) (aliveAll 0) (some rid) =
    { spawned := true, terminated := true, rc := (worker name).termRc,
      output := [], events := [] } := by
    unfold runScript
    rw [if_pos hav, hlines]
    rfl
  have hpl : pipeLoop avail worker rid noStopS (fun _ _ => true) aliveAll
      (jstr "stage") (some (.str name)) 0 [.str name] =
    { events := preEvents name rid ++ [evStageFailed name [] rid],
      runs := [{ name := .str name, spawned := true, terminated := true,
                 rc := (worker name).termRc, output := [] }],
      spawns := 1 } := by
    unfold pipeLoop
    rw [if_neg (show ¬(noStopS 0 = true) from by decide)]
    simp only []
    rw [hres]
    rw [if_neg (show ¬(({ spawned := true, terminated := true,
                          rc := (worker name).termRc, output := [],
                          events := [] } : ScriptRes).rc = 0) from hrc)]
    rfl
  unfold runPipeline
  rw [if_pos (by decide)]
  simp only []
  rw [if_pos htr, hpl]

/-- C5 witness: concrete stop-at-once run — the worker is terminated, the
output is empty, and the emitted events end with the stage-failed error. -/
theorem C5_stop_reports_failure_witness :
    runPipeline [c01] worker0 (jstr "stage") (some (.str c01)) rid0 noStopS
        (fun _ _ => true) aliveAll =
      { events := evStatus (lit "running") (some rid0)
            (some (lit "Audit run started")) none ::
          (preEvents c01 rid0 ++ [evStageFailed c01 [] rid0]),
        runs := [{ name := .str c01, spawned := true, terminated := true,
                   rc := (worker0 c01).termRc, output := [] }],
        spawns := 1 } :=
  C5_stop_reports_failure [c01] worker0 rid0 c01 (lit "hello") [] (by decide) rfl
    (by decide) (by decide)

/-- C5 counterexample: in a concrete run whose worker is terminated by the
stop flag, no emitted event reports the run as stopped (neither a
`status: stopped` event nor the stopped-by-user error appears) — the claim
that the run "is then reported to the client as stopped" fails; the client
instead sees a stage failure. -/
theorem C5_counterexample :
    (runPipeline [c01] worker0 (jstr "pipeline") none rid0 noStopS (fun _ _ => true)
        aliveAll).runs.map (fun sr => sr.terminated) = [true] ∧
    reportedStopped (runPipeline [c01] worker0 (jstr "pipeline") none rid0 noStopS
        (fun _ _ => true) aliveAll).events = false := by decide
/-- C2 witness: a concrete signature-less command against a configured
secret verifies to `False`. -/
theorem C2_verify_signature_characterization_witness :
    (verify_command_signature (some key0) cmdNoSig).1 = some false :=
  (C2_verify_signature_characterization key0 cmdNoSig).2.2 rfl

/-- C3 witness: the concrete message `M0` written to the wire and read
back yields `M0` with an empty remaining stream. -/
theorem C3_framing_roundtrip_witness : readMessageFrom bs0 = .msg M0 [] :=
  C3_framing_roundtrip _ (by decide) bs0 rfl

/-- C9 witness: a concrete 2-byte stream reads as end-of-stream and the
session exits cleanly. -/
theorem C9_truncated_length_prefix_witness :
    readMessageFrom (lit "ab") = .eof ∧
    serveBytes none initHost (lit "ab") = ([], initHost, false) :=
  C9_truncated_length_prefix none initHost (lit "ab") (by decide)

/-- C10 witness: after verifying a concrete signed command, the signature
field is gone from the mapping. -/
theorem C10_verify_mutates_command_witness :
    lookupKey (verify_command_signature (some key0) cmdBadSig).2 SIG_KEY = none :=
  (C10_verify_mutates_command key0 cmdBadSig).2.2 (.num 5) rfl
